import Mathlib

/-!
Verification development for the tick-driven entity-scripting core in
`src/core/environment.ts` (classes `Entity` and `Board`).

The state of the whole board is embedded as a single `BoardState` value.
JavaScript object references are represented by arena identifiers (`Nat`):
the field `entities` is the arena mapping each identifier to the current
`EntityState`, and every place the source stores an object reference
(instance table buckets, `spawnedObjs`, `deletedObjs`, `parent`, group
member sets) stores the identifier instead.  Fresh identifiers come from
`nextId`, mirroring `Util.generateId`.

Collaborator modules that are not part of the sources (`executor.ts`,
`parser.ts`, `group.ts`, `blocks.ts`, `ops.ts`) are modelled from the
spec; each such definition carries a doc comment starting with
"Modelled from the spec:".  Scripts are modelled as lists of `Instr`,
each instruction being one unit of work that may invoke the board
operations the source exposes to running scripts.

Loops in the source that are unbounded by design (the `while` loop in
`Entity.execute`) take an explicit fuel argument and return `none` when
the fuel runs out; `none` is also used for code paths on which the
JavaScript source would throw a `TypeError`.
-/

set_option maxHeartbeats 1000000

namespace ZZT

/-- Association-list lookup: the first binding for the key, mirroring
JavaScript property access on plain objects (keys are unique there). -/
def lookupA {α β : Type} [DecidableEq α] (k : α) : List (α × β) → Option β
  | [] => none
  | p :: ps => if p.1 = k then some p.2 else lookupA k ps

/-- Association-list update of the first binding for the key; appends a new
binding when the key is absent (JavaScript `obj[k] = v`). -/
def asetA {α β : Type} [DecidableEq α] (k : α) (v : β) : List (α × β) → List (α × β)
  | [] => [(k, v)]
  | p :: ps => if p.1 = k then (k, v) :: ps else p :: asetA k v ps

/-- Association-list in-place modification of the first binding for the key;
no effect when the key is absent. -/
def updA {α β : Type} [DecidableEq α] (k : α) (f : β → β) : List (α × β) → List (α × β)
  | [] => []
  | p :: ps => if p.1 = k then (p.1, f p.2) :: ps else p :: updA k f ps

/-- Removal of the first occurrence of an element, reporting `none` when the
element is absent. -/
def removeFirst {α : Type} [DecidableEq α] : List α → α → Option (List α)
  | [], _ => none
  | a :: as, x => if a = x then some as else (removeFirst as x).map (a :: ·)

/-- JavaScript `arr.splice(arr.indexOf(x), 1)`: removes the first occurrence
of `x` when present; when `x` is absent, `indexOf` yields `-1` and
`splice(-1, 1)` removes the last element of the array (and nothing when the
array is empty). -/
def spliceIndexOf {α : Type} [DecidableEq α] (l : List α) (x : α) : List α :=
  (removeFirst l x).getD l.dropLast

/-- Modelled from the spec: a staged control-transfer request, produced by
`JumpOp.create(labelName, args)` (`src/core/ops.ts` is not in the sources);
an opaque payload of a label name and an argument list. -/
structure JumpOp where
  label : String
  args : List String
deriving Repr, DecidableEq

/-- Modelled from the spec: one unit of work of a script's instruction
stream (the command set lives in the excluded collaborators).  Each
instruction either yields for the tick or invokes one of the `Board`
operations the source exposes to running scripts.  Target entities are
referenced by arena identifier. -/
inductive Instr where
  | nop
  | endCycle
  | gotoI (target : Nat) (label : String) (args : List String)
  | spawnI (objName : String) (parent : Option Nat) (args : List String)
  | removeI (target : Nat) (recursive : Bool)
  | replaceI (target : Nat) (newName : String) (args : List String)
  | terminateI
  | addToGroupI (group : String) (target : Nat)
  | removeFromGroupI (group : String) (target : Nat)
deriving Repr, DecidableEq

/-- Modelled from the spec: a compiled script definition — a label store
(name, enabled flag, block) plus the top-level instruction block.  The
source stores a `Function` and compiles it with the excluded parser. -/
structure Script where
  labels : List (String × Bool × List Instr)
  main : List Instr
deriving Repr, DecidableEq

/-- Modelled from the spec: the executor collaborator
(`src/core/executor.ts` is not in the sources) — a per-entity instruction
cursor: the label store of its script and the remaining instructions of
the current block. -/
structure Executor where
  labels : List (String × Bool × List Instr)
  current : List Instr
deriving Repr, DecidableEq

/-- Per-entity state, mirroring the fields of `class Entity`.  The `id` and
`board` fields of the source are represented by the arena key and the
enclosing `BoardState`; `script` keeps the compiled form; `vars` is the
source's `variables` field (that word is reserved in Lean). -/
structure EntityState where
  name : String
  script : Script
  initParams : List String
  depth : Nat
  parent : Option Nat
  vars : List (String × String)
  adoptions : List Nat
  groups : List String
  ended : Bool
  cycleEnded : Bool
  locked : Bool
  pendingJumpOp : Option JumpOp
  executor : Option Executor
deriving Repr, DecidableEq

/-- One depth level of the instance registry: object name to the ordered
bucket of entity identifiers (`InstanceMap` in the source). -/
abbrev Level := List (String × List Nat)

/-- Whole-board state, mirroring the fields of `class Board` that the
scheduler and lifecycle manager use.  `finishCount` counts invocations of
the finish callback; `objects` maps prototype names to arena identifiers
of the stored template entities. -/
structure BoardState where
  nextId : Nat
  entities : List (Nat × EntityState)
  objects : List (String × Nat)
  instances : List Level
  spawnedObjs : List Nat
  deletedObjs : List Nat
  groupStore : List (String × List Nat)
  terminated : Bool
  finishCount : Nat
deriving Repr, DecidableEq

/-- Entity state as built by the `Entity` constructor (all control state
clear, no executor attached yet). -/
def mkEntity (name : String) (script : Script) (initParams : List String) : EntityState :=
  { name := name, script := script, initParams := initParams, depth := 0, parent := none,
    vars := [], adoptions := [], groups := [], ended := false, cycleEnded := false,
    locked := false, pendingJumpOp := none, executor := none }

/-- Arena lookup of an entity by identifier. -/
def lookupE (s : BoardState) (eid : Nat) : Option EntityState :=
  lookupA eid s.entities

/-- Arena update of an entity by identifier (mutation of the referenced
object in the source). -/
def updE (s : BoardState) (eid : Nat) (f : EntityState → EntityState) : BoardState :=
  { s with entities := updA eid f s.entities }

/-- Allocation of a fresh entity in the arena (`new Entity(...)` with
`Util.generateId`). -/
def newEntity (s : BoardState) (name : String) (script : Script)
    (initParams : List String) : BoardState × Nat :=
  (⟨s.nextId + 1, s.entities ++ [(s.nextId, mkEntity name script initParams)],
    s.objects, s.instances, s.spawnedObjs, s.deletedObjs, s.groupStore,
    s.terminated, s.finishCount⟩, s.nextId)

/-- Modelled from the spec: `labelStore.hasEnabled` of the excluded label
store (`src/core/blocks.ts`) — whether the script has an enabled label of
this name. -/
def hasEnabled (ex : Executor) (label : String) : Bool :=
  ex.labels.any fun t => t.1 == label && t.2.1

/-- First label block registered under a name. -/
def lookupLabel : List (String × Bool × List Instr) → String → Option (List Instr)
  | [], _ => none
  | t :: ts, l => if t.1 = l then some t.2.2 else lookupLabel ts l

/-- Modelled from the spec: the compiler collaborator contract
`compile(entity) -> Executor` (`src/core/parser.ts` is not in the
sources) — produces a fresh instruction cursor for the entity's script. -/
def parseS (sc : Script) : Executor := ⟨sc.labels, sc.main⟩

/-- Modelled from the spec: `Executor.execJumpOp` — applies a staged jump
request by repositioning the cursor to the requested label's block. -/
def execJumpOp (ex : Executor) (j : JumpOp) : Executor :=
  { ex with current := (lookupLabel ex.labels j.label).getD ex.current }

/-- `Entity.gotoLabel`: a no-op when the entity is locked or the label is
not enabled; otherwise stages a jump (replacing any pending one) and
clears `ended` and `cycleEnded`.  Returns `none` when the source would
dereference a missing executor. -/
def gotoLabel (s : BoardState) (eid : Nat) (label : String) (args : List String) :
    Option BoardState :=
  match lookupE s eid with
  | none => none
  | some e =>
    if e.locked then some s
    else
      match e.executor with
      | none => none
      | some ex =>
        if hasEnabled ex label then
          some (updE s eid fun e =>
            { e with pendingJumpOp := some ⟨label, args⟩, ended := false, cycleEnded := false })
        else some s

/-- `Entity.begin`: clears `cycleEnded` and stages a jump to `init`. -/
def begin (s : BoardState) (eid : Nat) (initArgs : List String) : Option BoardState :=
  gotoLabel (updE s eid fun e => { e with cycleEnded := false }) eid "init" initArgs

/-- Modelled from the spec: `GroupStore.defineGroup`
(`src/core/group.ts` is not in the sources) — registers a group name,
idempotently, with an empty member set. -/
def defineGroup (s : BoardState) (groupName : String) : BoardState :=
  match lookupA groupName s.groupStore with
  | some _ => s
  | none => { s with groupStore := s.groupStore ++ [(groupName, [])] }

/-- `Board.addObjectToGroup`: a no-op when the group is undefined;
otherwise adds the entity to the group's member set (Modelled from the
spec: `Group.addEntity` keeps the member set free of duplicate entries)
and pushes the group name onto the entity's own `groups` list
(unconditionally, as in the source). -/
def addObjectToGroup (s : BoardState) (groupName : String) (eid : Nat) : BoardState :=
  match lookupA groupName s.groupStore with
  | none => s
  | some members =>
    let members' := if eid ∈ members then members else members ++ [eid]
    let s1 := { s with groupStore := asetA groupName members' s.groupStore }
    updE s1 eid fun e => { e with groups := e.groups ++ [groupName] }

/-- `Board.removeObjectFromGroup`: a no-op when the group is undefined;
otherwise removes the entity from the group's member set (Modelled from
the spec: `Group.removeEntity` deletes the entry for the entity) and
splices the group name out of the entity's `groups` list via
`indexOf`/`splice` as in the source. -/
def removeObjectFromGroup (s : BoardState) (groupName : String) (eid : Nat) : BoardState :=
  match lookupA groupName s.groupStore with
  | none => s
  | some members =>
    let s1 := { s with groupStore := asetA groupName ((removeFirst members eid).getD members) s.groupStore }
    updE s1 eid fun e => { e with groups := spliceIndexOf e.groups groupName }

/-- Downward loop of `Board.removeObjectFromAllGroups`: index `i` runs from
`entity.groups.length - 1` down to `0`, reading the live `groups` list at
each step (a read past the end is `undefined`, whose group is never
defined, so that call is a no-op). -/
def removeAllGroupsAux : Nat → BoardState → Nat → BoardState
  | 0, s, _ => s
  | i + 1, s, eid =>
    let s' :=
      match (lookupE s eid).bind fun e => e.groups.get? i with
      | some g => removeObjectFromGroup s g eid
      | none => s
    removeAllGroupsAux i s' eid

/-- `Board.removeObjectFromAllGroups`. -/
def removeObjectFromAllGroups (s : BoardState) (eid : Nat) : BoardState :=
  removeAllGroupsAux (((lookupE s eid).map fun e => e.groups.length).getD 0) s eid

/-- Parent identifier of an entity (`obj.parent`, reference compared by
identity in the source). -/
def parentOf (s : BoardState) (cid : Nat) : Option Nat :=
  (lookupE s cid).bind fun e => e.parent

/-- Children of `eid` found in one instance level, in bucket order. -/
def childrenInLevel (s : BoardState) (level : Level) (eid : Nat) : List Nat :=
  level.foldr (fun p acc => p.2.filter (fun cid => parentOf s cid == some eid) ++ acc) []

/-- `Board.getChildObjects`: entities one level deeper whose `parent` is
this entity, from the promoted registry and then from the not-yet-promoted
`spawnedObjs` queue; returns `[]` outright when the deeper level does not
exist. -/
def getChildObjects (s : BoardState) (eid : Nat) : List Nat :=
  match lookupE s eid with
  | none => []
  | some e =>
    if s.instances.length ≤ e.depth + 1 then []
    else
      childrenInLevel s ((s.instances.get? (e.depth + 1)).getD []) eid ++
        s.spawnedObjs.filter (fun cid => parentOf s cid == some eid)

/-- Body of `Board.removeObject` without the recursive sweep: sets
`locked`, `ended`, `cycleEnded`, destroys adoptions, strips all group
memberships, and enqueues the entity for deferred purge. -/
def removeObjectOne (s : BoardState) (eid : Nat) : BoardState :=
  let s1 := updE s eid fun e =>
    { e with locked := true, ended := true, cycleEnded := true, adoptions := [] }
  let s2 := removeObjectFromAllGroups s1 eid
  { s2 with deletedObjs := s2.deletedObjs ++ [eid] }

/-- `Board.removeObject`: when `recursive` is set, first removes every
current child — the inner call `this.removeObject(child)` passes no
`recursive` argument, so children are removed non-recursively — then
removes the entity itself. -/
def removeObject (s : BoardState) (eid : Nat) (recursive : Bool) : BoardState :=
  let s1 := if recursive then (getChildObjects s eid).foldl removeObjectOne s else s
  removeObjectOne s1 eid

/-- Clone part of `Board.spawnObject`: clones the template with the fresh
identifier `s.nextId` and sets its depth, parent (self-sentinel when no
parent is given) and a freshly parsed executor. -/
def spawnSetup (s : BoardState) (tmpl : EntityState) (depth : Nat)
    (parent : Option Nat) : BoardState :=
  updE (newEntity s tmpl.name tmpl.script tmpl.initParams).1 s.nextId fun e =>
    { e with depth := depth, parent := some (parent.getD s.nextId),
             executor := some (parseS tmpl.script) }

/-- Clone-and-stage part of `Board.spawnObject`, after the parent-level
growth: clones the template, runs `begin` on the clone, and enqueues it
into `spawnedObjs`. -/
def spawnCore (s : BoardState) (tmpl : EntityState) (depth : Nat) (parent : Option Nat)
    (initArgs : List String) : Option (BoardState × Option Nat) :=
  (begin (spawnSetup s tmpl depth parent) s.nextId initArgs).map fun s2 =>
    ({ s2 with spawnedObjs := s2.spawnedObjs ++ [s.nextId] }, some s.nextId)

/-- Level growth in `Board.spawnObject`: appends one empty instance level
when the parent's child level does not exist yet. -/
def growFor (s : BoardState) (pe : EntityState) : BoardState :=
  if s.instances.length ≤ pe.depth + 1 then { s with instances := s.instances ++ [[]] } else s

/-- `Board.spawnObject`: returns no entity when the name is not a
registered prototype; otherwise grows the instance level sequence by one
empty level when the parent's child level does not exist yet, then clones
and stages the prototype. -/
def spawnObject (s : BoardState) (objName : String) (parent : Option Nat)
    (initArgs : List String) : Option (BoardState × Option Nat) :=
  match lookupA objName s.objects with
  | none => some (s, none)
  | some pid =>
    match lookupE s pid with
    | none => some (s, none)
    | some tmpl =>
      match parent with
      | none => spawnCore s tmpl 0 none initArgs
      | some p =>
        match lookupE s p with
        | none => none
        | some pe => spawnCore (growFor s pe) tmpl (pe.depth + 1) (some p) initArgs

/-- `Board.replaceObject`: spawns the replacement under the target's
parent, reparents every current child of the target onto it, then removes
the target non-recursively.  Returns `none` when `newName` is not
registered (the source dereferences `this.objects[newName].name` and
would throw). -/
def replaceObject (s : BoardState) (target : Nat) (newName : String)
    (initArgs : List String) : Option BoardState :=
  match lookupA newName s.objects with
  | none => none
  | some pid =>
    match lookupE s pid with
    | none => none
    | some tmpl =>
      match lookupE s target with
      | none => none
      | some t =>
        (spawnObject s tmpl.name t.parent initArgs).map fun r =>
          let s2 := (getChildObjects r.1 target).foldl
            (fun acc cid => updE acc cid fun c => { c with parent := r.2 }) r.1
          removeObjectOne s2 target

/-- `Board.defineObject`: throws a duplicate-definition error when the
name is already registered (before any mutation); otherwise stores a
template entity and registers it under the name. -/
def defineObject (s : BoardState) (objName : String) (initParams : List String)
    (script : Script) : BoardState × Except String Nat :=
  match lookupA objName s.objects with
  | some _ => (s, Except.error "Duplicate object definition")
  | none =>
    let r := newEntity s objName script initParams
    ({ r.1 with objects := r.1.objects ++ [(objName, r.2)] }, Except.ok r.2)

/-- `Board.terminate`: sets the termination flag. -/
def terminate (s : BoardState) : BoardState :=
  { s with terminated := true }

/-- One iteration of the promote phase of `Board.step`: inserts a staged
entity into `instances[depth][name]`, creating the bucket when absent.
Returns `none` when the depth level does not exist (the source would
throw). -/
def promoteOne (s : BoardState) (eid : Nat) : Option BoardState :=
  match lookupE s eid with
  | none => some s
  | some e =>
    match s.instances.get? e.depth with
    | none => none
    | some level =>
      let level1 := match lookupA e.name level with
        | some bucket => asetA e.name (bucket ++ [eid]) level
        | none => level ++ [(e.name, [eid])]
      some { s with instances := s.instances.set e.depth level1 }

/-- Promote phase over the whole `spawnedObjs` queue, in order. -/
def promoteAll : List Nat → BoardState → Option BoardState
  | [], s => some s
  | eid :: rest, s => (promoteOne s eid).bind (promoteAll rest)

/-- One iteration of the purge phase of `Board.step`: splices the entity
out of `instances[depth][name]` via `indexOf`/`splice`.  Returns `none`
when the level or bucket does not exist (the source would throw). -/
def purgeOne (s : BoardState) (eid : Nat) : Option BoardState :=
  match lookupE s eid with
  | none => some s
  | some e =>
    match s.instances.get? e.depth with
    | none => none
    | some level =>
      match lookupA e.name level with
      | none => none
      | some bucket =>
        some { s with instances :=
          s.instances.set e.depth (asetA e.name (spliceIndexOf bucket eid) level) }

/-- Purge phase over the whole `deletedObjs` queue, in order. -/
def purgeAll : List Nat → BoardState → Option BoardState
  | [], s => some s
  | eid :: rest, s => (purgeOne s eid).bind (purgeAll rest)

/-- Structural-mutation phases at the start of `Board.step`: promote the
`spawnedObjs` queue and clear it, then purge the `deletedObjs` queue and
clear it. -/
def phases (s : BoardState) : Option BoardState :=
  (promoteAll s.spawnedObjs s).bind fun s1 =>
    let s1 := { s1 with spawnedObjs := [] }
    (purgeAll s1.deletedObjs s1).map fun s2 => { s2 with deletedObjs := [] }

/-- Effect of one instruction executed by entity `selfId`.  Each
constructor maps to the board operation the source exposes to running
scripts. -/
def applyInstr (s : BoardState) (selfId : Nat) : Instr → Option BoardState
  | .nop => some s
  | .endCycle => some (updE s selfId fun e => { e with cycleEnded := true })
  | .gotoI target label args => gotoLabel s target label args
  | .spawnI objName parent args => (spawnObject s objName parent args).map Prod.fst
  | .removeI target recursive => some (removeObject s target recursive)
  | .replaceI target newName args => replaceObject s target newName args
  | .terminateI => some (terminate s)
  | .addToGroupI g target => some (addObjectToGroup s g target)
  | .removeFromGroupI g target => some (removeObjectFromGroup s g target)

/-- Modelled from the spec: `Executor.step` (the `advance` contract of
the executor collaborator, `src/core/executor.ts` is not in the sources).
When the instruction stream is exhausted it reports `false` and the
entity is treated as naturally ended (`ended := true`); otherwise it
consumes one instruction, performs its unit of work, and reports `true`. -/
def execAdvance (s : BoardState) (eid : Nat) : Option (Bool × BoardState) :=
  match lookupE s eid with
  | none => none
  | some e =>
    match e.executor with
    | none => none
    | some ex =>
      match ex.current with
      | [] => some (false, updE s eid fun e => { e with ended := true })
      | i :: rest =>
        let s1 := updE s eid fun e => { e with executor := some { ex with current := rest } }
        (applyInstr s1 eid i).map fun s2 => (true, s2)

/-- Application of a pending jump inside `Entity.execute`: hands the
staged request to the executor and clears the pending slot. -/
def applyPendingJump (s : BoardState) (eid : Nat) (j : JumpOp) : BoardState :=
  updE s eid fun e =>
    match e.executor with
    | none => e
    | some ex => { e with executor := some (execJumpOp ex j), pendingJumpOp := none }

/-- The `while (this.executor.step())` loop of `Entity.execute`, with
fuel.  The returned flag records whether the loop exited because the
executor's advance reported that no more work is available (as opposed to
a `cycleEnded`/`ended` break). -/
def execLoopR : Nat → BoardState → Nat → Option (BoardState × Bool)
  | 0, _, _ => none
  | fuel + 1, s, eid =>
    (execAdvance s eid).bind fun r =>
      if r.1 then
        match lookupE r.2 eid with
        | none => none
        | some e =>
          if e.cycleEnded || e.ended then some (r.2, false)
          else
            match e.pendingJumpOp with
            | some j => execLoopR fuel (applyPendingJump r.2 eid j) eid
            | none => execLoopR fuel r.2 eid
      else some (r.2, true)

/-- `Entity.execute` with an exhaustion flag: clears `cycleEnded`, returns
immediately when `ended`, applies a pending jump, then drives the
advance loop.  The flag records whether the loop exited because the
executor reported no more work. -/
def executeR (fuel : Nat) (s : BoardState) (eid : Nat) : Option (BoardState × Bool) :=
  match lookupE s eid with
  | none => none
  | some e =>
    let s1 := updE s eid fun e => { e with cycleEnded := false }
    if e.ended then some (s1, false)
    else
      let s2 := match e.pendingJumpOp with
        | some j => applyPendingJump s1 eid j
        | none => s1
      execLoopR fuel s2 eid

/-- `Entity.execute`. -/
def execute (fuel : Nat) (s : BoardState) (eid : Nat) : Option BoardState :=
  (executeR fuel s eid).map Prod.fst

/-- Ordered identifiers of one instance level: bucket order within key
insertion order. -/
def bucketIds (level : Level) : List Nat :=
  level.foldr (fun p acc => p.2 ++ acc) []

/-- All identifiers currently in the instance registry. -/
def allIds (inst : List Level) : List Nat :=
  inst.foldr (fun lvl acc => bucketIds lvl ++ acc) []

/-- Traversal order of one tick: deepest level first, then key insertion
order, then bucket order.  During a tick no operation available to
scripts mutates an existing bucket or level (structural mutation is
deferred through `spawnedObjs`/`deletedObjs`; a spawn may append one new
empty level, which the downward index loop of the source never visits),
so the order is fixed at the start of the traversal. -/
def schedule (s : BoardState) : List Nat :=
  allIds s.instances.reverse

/-- Execution of the traversal over a fixed order, accumulating the trace
of entities on which `execute` was invoked. -/
def execSchedule (fuel : Nat) : List Nat → BoardState → Option (BoardState × List Nat)
  | [], s => some (s, [])
  | eid :: rest, s =>
    (execute fuel s eid).bind fun s1 =>
      (execSchedule fuel rest s1).map fun r => (r.1, eid :: r.2)

/-- `Board.step` with a trace of executed entities: a no-op when already
terminated; otherwise applies the promote and purge phases, traverses the
registry deepest-first calling `execute` on every entity, and finally
invokes the finish callback (counted in `finishCount`) when `terminated`
is set by then. -/
def stepTr (fuel : Nat) (s : BoardState) : Option (BoardState × List Nat) :=
  if s.terminated then some (s, [])
  else
    (phases s).bind fun s2 =>
      (execSchedule fuel (schedule s2) s2).map fun r =>
        (if r.1.terminated then { r.1 with finishCount := r.1.finishCount + 1 } else r.1, r.2)

/-- `Board.step`. -/
def step (fuel : Nat) (s : BoardState) : Option BoardState :=
  (stepTr fuel s).map Prod.fst

/-- Board state as built by the `Board` constructor (one empty instance
level, nothing registered, not terminated). -/
def initBoard : BoardState :=
  { nextId := 0, entities := [], objects := [], instances := [[]], spawnedObjs := [],
    deletedObjs := [], groupStore := [], terminated := false, finishCount := 0 }

/-- Identifier discipline of the arena: every allocated identifier is
below `nextId` (true of every state reachable through the public
operations, since identifiers come from the `nextId` counter). -/
def IdsOk (s : BoardState) : Prop :=
  ∀ p ∈ s.entities, p.1 < s.nextId

/-- Enqueueing of a staged clone into `spawnedObjs`. -/
def spawnFinish (t : BoardState) (cid : Nat) : BoardState :=
  { t with spawnedObjs := t.spawnedObjs ++ [cid] }

/-- Evaluated result of `spawnCore` on a state whose `nextId` is fresh:
the clone is set up, `begin` has run on it (staging an `init` jump when
that label is enabled), and it is enqueued into `spawnedObjs`.  Used to
name the result state in the characterisation lemma below. -/
def spawnStaged (s : BoardState) (tmpl : EntityState) (d : Nat) (par : Option Nat)
    (args : List String) : BoardState :=
  spawnFinish
    (if hasEnabled (parseS tmpl.script) "init" then
      updE (updE (spawnSetup s tmpl d par) s.nextId fun e => { e with cycleEnded := false })
        s.nextId fun e =>
          { e with pendingJumpOp := some ⟨"init", args⟩, ended := false, cycleEnded := false }
    else updE (spawnSetup s tmpl d par) s.nextId fun e => { e with cycleEnded := false })
    s.nextId

/-- Script that yields immediately: one cycle-ending instruction. -/
def scYield : Script := ⟨[], [Instr.endCycle]⟩

/-- Chain scenario A → B → C: three prototypes, a root `A` (identifier 3)
with child `B` (4) and grandchild `C` (5), promoted by one tick. -/
def chainDefs : BoardState :=
  (defineObject ((defineObject ((defineObject initBoard "A" [] scYield).1) "B" [] scYield).1)
    "C" [] scYield).1

def chainS1 : BoardState := ((spawnObject chainDefs "A" none []).getD (chainDefs, none)).1

def chainS2 : BoardState := ((spawnObject chainS1 "B" (some 3) []).getD (chainS1, none)).1

def chainS3 : BoardState := ((spawnObject chainS2 "C" (some 4) []).getD (chainS2, none)).1

def chainTick : BoardState := ((stepTr 9 chainS3).getD (chainS3, [])).1

def chainRemoved : BoardState := removeObject chainTick 3 true

/-- Purge scenario: one prototype `P`, two promoted instances (1 and 2)
sharing the bucket `instances[0]["P"]`, with instance 1 removed twice. -/
def purgeDefs : BoardState := (defineObject initBoard "P" [] scYield).1

def purgeS1 : BoardState := ((spawnObject purgeDefs "P" none []).getD (purgeDefs, none)).1

def purgeS2 : BoardState := ((spawnObject purgeS1 "P" none []).getD (purgeS1, none)).1

def purgeTick : BoardState := ((stepTr 9 purgeS2).getD (purgeS2, [])).1

def purgeDoubled : BoardState := removeObject (removeObject purgeTick 1 false) 1 false

def purgeFinal : BoardState := ((stepTr 9 purgeDoubled).getD (purgeDoubled, [])).1

/-- Group scenario: two defined groups, one entity (identifier 1) added to
`g1` only, then removed from `g2` — a group it never joined. -/
def grpA : BoardState :=
  defineGroup (defineGroup ((defineObject initBoard "P" [] scYield).1) "g1") "g2"

def grpB : BoardState := ((spawnObject grpA "P" none []).getD (grpA, none)).1

def grpC : BoardState := addObjectToGroup grpB "g1" 1

def grpD : BoardState := removeObjectFromGroup grpC "g2" 1

/-- Arena entry 1 of `grpB`, for witnesses. -/
def grpBent : EntityState := (lookupE grpB 1).getD (mkEntity "X" ⟨[], []⟩ [])

/-- Arena entry 1 of `grpC`, for witnesses. -/
def grpCent : EntityState := (lookupE grpC 1).getD (mkEntity "X" ⟨[], []⟩ [])

/-- Minimal entity with an attached empty executor, for witnesses. -/
def wEnt : EntityState := { mkEntity "E" ⟨[], []⟩ [] with executor := some ⟨[], []⟩ }

/-- Minimal one-entity board, for witnesses. -/
def wBoard : BoardState := { initBoard with nextId := 1, entities := [(0, wEnt)] }

/-- Variant of `wBoard` whose entity is locked. -/
def wBoardL : BoardState :=
  { initBoard with nextId := 1, entities := [(0, { wEnt with locked := true, ended := true })] }

/-- Result of one `execute` call on the minimal board. -/
def wExecPost : BoardState × Bool := (executeR 1 wBoard 0).getD (wBoard, false)

/-- Board with one registered prototype `P`, for witnesses. -/
def wDefs : BoardState := (defineObject initBoard "P" [] scYield).1

/-- Result of spawning `P` on `wDefs`, for witnesses. -/
def wSpawnPost : BoardState × Option Nat := (spawnObject wDefs "P" none []).getD (wDefs, none)

/-- Mid-tick simulation bundle: quantities preserved or monotone across
everything that can run between the structural-mutation phases of one
tick — `nextId` never decreases, the finish counter is untouched,
allocated entities stay allocated, and every identifier newly staged in
`spawnedObjs` is at least the starting `nextId` and allocated. -/
def Mid (s s' : BoardState) : Prop :=
  s.nextId ≤ s'.nextId ∧
  s'.finishCount = s.finishCount ∧
  (∀ k, (lookupE s k).isSome = true → (lookupE s' k).isSome = true) ∧
  (∀ id, id ∈ s'.spawnedObjs →
    id ∈ s.spawnedObjs ∨ (s.nextId ≤ id ∧ (lookupE s' id).isSome = true))

/-- Identifier discipline over the whole board: arena, instance registry
and spawn queue only mention identifiers below `nextId` (true of every
state reachable through the public operations). -/
def StateOk (s : BoardState) : Prop :=
  IdsOk s ∧ (∀ id ∈ allIds s.instances, id < s.nextId) ∧
    (∀ id ∈ s.spawnedObjs, id < s.nextId)

/-- Invariant of the spec: `locked ⇒ ended`, over every arena entry. -/
def LInv (s : BoardState) : Prop :=
  ∀ p ∈ s.entities, p.2.locked = true → p.2.ended = true

/-- Fate of locked entities across one operation: they stay allocated,
stay locked and ended, and their pending jump slot is untouched. -/
def Frozen (s s' : BoardState) : Prop :=
  ∀ eid e, lookupE s eid = some e → e.locked = true →
    ∃ e', lookupE s' eid = some e' ∧ e'.locked = true ∧ e'.ended = true ∧
      e'.pendingJumpOp = e.pendingJumpOp

/-- Preservation bundle for the locked-entity discipline. -/
def Good (s s' : BoardState) : Prop :=
  LInv s → LInv s' ∧ Frozen s s'

/-- Two-sided group membership invariant: every group name held by an
entity names a defined group, group lists and member sets are free of
duplicates, and `g ∈ e.groups` iff `e` is in `g`'s member set. -/
def GInv (s : BoardState) : Prop :=
  (∀ eid e, lookupE s eid = some e →
    e.groups.Nodup ∧ ∀ g ∈ e.groups, (lookupA g s.groupStore).isSome = true) ∧
  (∀ g m, lookupA g s.groupStore = some m → m.Nodup) ∧
  (∀ eid e g m, lookupE s eid = some e → lookupA g s.groupStore = some m →
    (g ∈ e.groups ↔ eid ∈ m))

/-- Public operation surface of the core, for invariant-preservation
statements quantified over "every operation". -/
inductive BOp where
  | beginOp (eid : Nat) (args : List String)
  | gotoOp (eid : Nat) (label : String) (args : List String)
  | execOp (fuel : Nat) (eid : Nat)
  | stepOp (fuel : Nat)
  | defineOp (objName : String) (params : List String) (sc : Script)
  | defGroupOp (g : String)
  | spawnOp (objName : String) (parent : Option Nat) (args : List String)
  | removeOp (eid : Nat) (recursive : Bool)
  | replaceOp (eid : Nat) (newName : String) (args : List String)
  | addGrpOp (g : String) (eid : Nat)
  | remGrpOp (g : String) (eid : Nat)
  | remAllGrpOp (eid : Nat)
  | termOp
deriving Repr, DecidableEq

/-- Semantics of one public operation. -/
def applyBOp : BOp → BoardState → Option BoardState
  | .beginOp eid args, s => begin s eid args
  | .gotoOp eid l args, s => gotoLabel s eid l args
  | .execOp fuel eid, s => execute fuel s eid
  | .stepOp fuel, s => step fuel s
  | .defineOp n params sc, s => some (defineObject s n params sc).1
  | .defGroupOp g, s => some (defineGroup s g)
  | .spawnOp n par args, s => (spawnObject s n par args).map Prod.fst
  | .removeOp eid r, s => some (removeObject s eid r)
  | .replaceOp eid n args, s => replaceObject s eid n args
  | .addGrpOp g eid, s => some (addObjectToGroup s g eid)
  | .remGrpOp g eid, s => some (removeObjectFromGroup s g eid)
  | .remAllGrpOp eid, s => some (removeObjectFromAllGroups s eid)
  | .termOp, s => some (terminate s)

/-- Termination scenario: prototype `T1` terminates the board from its
`init` label; `T2` merely yields.  Both are promoted and scheduled for
the same tick. -/
def termDefs : BoardState :=
  (defineObject ((defineObject initBoard "T1" [] ⟨[("init", true, [Instr.terminateI])], []⟩).1)
    "T2" [] scYield).1

def termS1 : BoardState := ((spawnObject termDefs "T1" none []).getD (termDefs, none)).1

def termS2 : BoardState := ((spawnObject termS1 "T2" none []).getD (termS1, none)).1

def termPost : BoardState × List Nat := (stepTr 9 termS2).getD (termS2, [])

/-- Deferred-visibility scenario: root prototype `R` (spawned as entity
2) spawns a child `C` (entity 3) from its `init` label during its own
execution. -/
def visDefs : BoardState :=
  (defineObject ((defineObject initBoard "R" []
    ⟨[("init", true, [Instr.spawnI "C" (some 2) []])], []⟩).1) "C" [] scYield).1

def visS1 : BoardState := ((spawnObject visDefs "R" none []).getD (visDefs, none)).1

def visT1 : BoardState × List Nat := (stepTr 9 visS1).getD (visS1, [])

def visT2 : BoardState × List Nat := (stepTr 9 visT1.1).getD (visT1.1, [])

def visSpawn : BoardState × Option Nat :=
  (spawnObject visT1.1 "C" (some 2) []).getD (visT1.1, none)

/-- Root entity value after tick one of the deferred-visibility
scenario. -/
def visRoot : EntityState := (lookupE visT1.1 2).getD (mkEntity "x" ⟨[], []⟩ [])

/-! Basic lemmas about the association-list helpers. -/

theorem lookupA_append_of_none {α β : Type} [DecidableEq α] {k : α} {l₁ l₂ : List (α × β)}
    (h : lookupA k l₁ = none) : lookupA k (l₁ ++ l₂) = lookupA k l₂ := by
  induction l₁ with
  | nil => rfl
  | cons p ps ih =>
    simp only [lookupA, List.cons_append] at h ⊢
    split at h
    · exact absurd h (by simp)
    · rename_i hne
      rw [if_neg hne]
      exact ih h

theorem lookupA_append_of_some {α β : Type} [DecidableEq α] {k : α} {v : β}
    {l₁ l₂ : List (α × β)} (h : lookupA k l₁ = some v) : lookupA k (l₁ ++ l₂) = some v := by
  induction l₁ with
  | nil => simp [lookupA] at h
  | cons p ps ih =>
    simp only [lookupA, List.cons_append] at h ⊢
    split at h
    · rename_i heq
      rw [if_pos heq]
      exact h
    · rename_i hne
      rw [if_neg hne]
      exact ih h

theorem lookupA_append_ne {α β : Type} [DecidableEq α] {k k' : α} {v : β}
    (l : List (α × β)) (h : k ≠ k') : lookupA k (l ++ [(k', v)]) = lookupA k l := by
  induction l with
  | nil =>
    have h' : ¬ (k' = k) := fun hc => h hc.symm
    simp [lookupA, h']
  | cons p ps ih =>
    simp only [lookupA, List.cons_append]
    split
    · rfl
    · exact ih

theorem lookupA_updA {α β : Type} [DecidableEq α] (k k' : α) (f : β → β)
    (l : List (α × β)) :
    lookupA k' (updA k f l) = if k' = k then (lookupA k' l).map f else lookupA k' l := by
  induction l with
  | nil => simp [lookupA, updA]
  | cons p ps ih =>
    by_cases h1 : p.1 = k
    · by_cases h2 : k' = k
      · subst h2
        simp [lookupA, updA, h1]
      · have h3 : ¬ (p.1 = k') := by
          rw [h1]
          exact fun hc => h2 hc.symm
        have h4 : ¬ (k = k') := fun hc => h2 hc.symm
        simp [lookupA, updA, h1, h2, h3, h4]
    · by_cases h2 : p.1 = k'
      · have h3 : ¬ (k' = k) := by
          rw [← h2]
          exact h1
        simp [lookupA, updA, h1, h2, h3]
      · simp [lookupA, updA, h1, h2, ih]

theorem lookupA_some_mem {α β : Type} [DecidableEq α] {k : α} {v : β} {l : List (α × β)}
    (h : lookupA k l = some v) : (k, v) ∈ l := by
  induction l with
  | nil => simp [lookupA] at h
  | cons p ps ih =>
    simp only [lookupA] at h
    split at h
    · rename_i h1
      injection h with h2
      have : p = (k, v) := by
        cases p
        simp only at h1 h2
        rw [h1, h2]
      rw [← this]
      exact List.mem_cons_self _ _
    · exact List.mem_cons_of_mem _ (ih h)

theorem lookupE_updE (s : BoardState) (eid : Nat) (f : EntityState → EntityState) (k : Nat) :
    lookupE (updE s eid f) k = if k = eid then (lookupE s k).map f else lookupE s k := by
  simpa [lookupE, updE] using lookupA_updA eid k f s.entities

theorem lookupE_none_of_ge {s : BoardState} {k : Nat} (hIds : IdsOk s)
    (h : s.nextId ≤ k) : lookupE s k = none := by
  cases hl : lookupE s k with
  | none => rfl
  | some v =>
    have := hIds _ (lookupA_some_mem hl)
    omega

/-! Characterisation of `gotoLabel`, `begin` and `spawnCore`. -/

theorem gotoLabel_eq_of {t : BoardState} {cid : Nat} {e : EntityState} {ex : Executor}
    (l : String) (args : List String)
    (h : lookupE t cid = some e) (hl : e.locked = false) (hx : e.executor = some ex) :
    gotoLabel t cid l args =
      some (if hasEnabled ex l then
        updE t cid (fun e =>
          { e with pendingJumpOp := some ⟨l, args⟩, ended := false, cycleEnded := false })
      else t) := by
  by_cases hE : hasEnabled ex l
  · simp [gotoLabel, h, hl, hx, hE]
  · simp [gotoLabel, h, hl, hx, hE]

theorem begin_def (s : BoardState) (eid : Nat) (args : List String) :
    begin s eid args =
      gotoLabel (updE s eid fun e => { e with cycleEnded := false }) eid "init" args := rfl

theorem lookupE_newEntity_fresh {s : BoardState} (name : String) (sc : Script)
    (ps : List String) (hFresh : lookupE s s.nextId = none) :
    lookupE (newEntity s name sc ps).1 s.nextId = some (mkEntity name sc ps) := by
  show lookupA s.nextId (s.entities ++ [(s.nextId, mkEntity name sc ps)]) = _
  rw [lookupA_append_of_none hFresh]
  simp [lookupA]

theorem lookupE_newEntity_ne {s : BoardState} (name : String) (sc : Script)
    (ps : List String) {k : Nat} (hk : k ≠ s.nextId) :
    lookupE (newEntity s name sc ps).1 k = lookupE s k :=
  lookupA_append_ne _ hk

theorem lookupE_spawnSetup_self {s : BoardState} (tmpl : EntityState) (d : Nat)
    (par : Option Nat) (hFresh : lookupE s s.nextId = none) :
    lookupE (spawnSetup s tmpl d par) s.nextId =
      some { mkEntity tmpl.name tmpl.script tmpl.initParams with
             depth := d, parent := some (par.getD s.nextId),
             executor := some (parseS tmpl.script) } := by
  show lookupE (updE _ _ _) _ = _
  rw [lookupE_updE, if_pos rfl, lookupE_newEntity_fresh _ _ _ hFresh]
  rfl

theorem lookupE_spawnSetup_ne {s : BoardState} (tmpl : EntityState) (d : Nat)
    (par : Option Nat) {k : Nat} (hk : k ≠ s.nextId) :
    lookupE (spawnSetup s tmpl d par) k = lookupE s k := by
  show lookupE (updE _ _ _) _ = _
  rw [lookupE_updE, if_neg hk, lookupE_newEntity_ne _ _ _ hk]

theorem spawnCore_eq {s : BoardState} (tmpl : EntityState) (d : Nat) (par : Option Nat)
    (args : List String) (hFresh : lookupE s s.nextId = none) :
    spawnCore s tmpl d par args = some (spawnStaged s tmpl d par args, some s.nextId) := by
  have hself : lookupE (updE (spawnSetup s tmpl d par) s.nextId
      fun e => { e with cycleEnded := false }) s.nextId =
      some { mkEntity tmpl.name tmpl.script tmpl.initParams with
             depth := d, parent := some (par.getD s.nextId),
             executor := some (parseS tmpl.script), cycleEnded := false } := by
    rw [lookupE_updE, if_pos rfl, lookupE_spawnSetup_self _ _ _ hFresh]
    rfl
  have hgoto := gotoLabel_eq_of "init" args hself rfl rfl
  show (begin (spawnSetup s tmpl d par) s.nextId args).map _ = _
  rw [begin_def, hgoto]
  by_cases hE : hasEnabled (parseS tmpl.script) "init"
  · rw [if_pos hE]
    show _ = some (spawnStaged s tmpl d par args, some s.nextId)
    unfold spawnStaged
    rw [if_pos hE]
    rfl
  · rw [if_neg hE]
    show _ = some (spawnStaged s tmpl d par args, some s.nextId)
    unfold spawnStaged
    rw [if_neg hE]
    rfl

theorem spawnStaged_spec {s : BoardState} (tmpl : EntityState) (d : Nat) (par : Option Nat)
    (args : List String) (hFresh : lookupE s s.nextId = none) :
    (spawnStaged s tmpl d par args).objects = s.objects ∧
    (spawnStaged s tmpl d par args).nextId = s.nextId + 1 ∧
    (spawnStaged s tmpl d par args).instances = s.instances ∧
    (spawnStaged s tmpl d par args).spawnedObjs = s.spawnedObjs ++ [s.nextId] ∧
    (spawnStaged s tmpl d par args).deletedObjs = s.deletedObjs ∧
    (spawnStaged s tmpl d par args).groupStore = s.groupStore ∧
    (spawnStaged s tmpl d par args).terminated = s.terminated ∧
    (spawnStaged s tmpl d par args).finishCount = s.finishCount ∧
    (∀ k, k ≠ s.nextId → lookupE (spawnStaged s tmpl d par args) k = lookupE s k) ∧
    ∃ c, lookupE (spawnStaged s tmpl d par args) s.nextId = some c ∧
      c.name = tmpl.name ∧ c.script = tmpl.script ∧
      c.initParams = tmpl.initParams ∧ c.vars = [] ∧ c.adoptions = [] ∧ c.groups = [] ∧
      c.depth = d ∧ c.parent = some (par.getD s.nextId) ∧
      c.executor = some (parseS tmpl.script) := by
  have hself : lookupE (updE (spawnSetup s tmpl d par) s.nextId
      fun e => { e with cycleEnded := false }) s.nextId =
      some { mkEntity tmpl.name tmpl.script tmpl.initParams with
             depth := d, parent := some (par.getD s.nextId),
             executor := some (parseS tmpl.script), cycleEnded := false } := by
    rw [lookupE_updE, if_pos rfl, lookupE_spawnSetup_self _ _ _ hFresh]
    rfl
  unfold spawnStaged
  by_cases hE : hasEnabled (parseS tmpl.script) "init"
  · rw [if_pos hE]
    refine ⟨rfl, rfl, rfl, rfl, rfl, rfl, rfl, rfl, ?_, ?_⟩
    · intro k hk
      show lookupE (updE (updE (spawnSetup s tmpl d par) _ _) _ _) k = _
      rw [lookupE_updE, if_neg hk, lookupE_updE, if_neg hk, lookupE_spawnSetup_ne _ _ _ hk]
    · refine ⟨{ mkEntity tmpl.name tmpl.script tmpl.initParams with
          depth := d, parent := some (par.getD s.nextId),
          executor := some (parseS tmpl.script), cycleEnded := false,
          pendingJumpOp := some ⟨"init", args⟩, ended := false },
        ?_, rfl, rfl, rfl, rfl, rfl, rfl, rfl, rfl, rfl⟩
      show lookupE (updE (updE (spawnSetup s tmpl d par) _ _) _ _) s.nextId = _
      rw [lookupE_updE, if_pos rfl, hself]
      rfl
  · rw [if_neg hE]
    refine ⟨rfl, rfl, rfl, rfl, rfl, rfl, rfl, rfl, ?_, ?_⟩
    · intro k hk
      show lookupE (updE (spawnSetup s tmpl d par) _ _) k = _
      rw [lookupE_updE, if_neg hk, lookupE_spawnSetup_ne _ _ _ hk]
    · refine ⟨{ mkEntity tmpl.name tmpl.script tmpl.initParams with
          depth := d, parent := some (par.getD s.nextId),
          executor := some (parseS tmpl.script), cycleEnded := false },
        ?_, rfl, rfl, rfl, rfl, rfl, rfl, rfl, rfl, rfl⟩
      exact hself

theorem growFor_entities (s : BoardState) (pe : EntityState) :
    (growFor s pe).entities = s.entities := by
  unfold growFor
  split <;> rfl

theorem growFor_nextId (s : BoardState) (pe : EntityState) :
    (growFor s pe).nextId = s.nextId := by
  unfold growFor
  split <;> rfl

theorem growFor_objects (s : BoardState) (pe : EntityState) :
    (growFor s pe).objects = s.objects := by
  unfold growFor
  split <;> rfl

theorem lookupE_growFor (s : BoardState) (pe : EntityState) (k : Nat) :
    lookupE (growFor s pe) k = lookupE s k := by
  unfold lookupE
  rw [growFor_entities]

/-! Exhaustion behaviour of the advance loop. -/

theorem execAdvance_false {s : BoardState} {eid : Nat} {t : BoardState}
    (h : execAdvance s eid = some (false, t)) :
    ∃ e', lookupE t eid = some e' ∧ e'.ended = true := by
  unfold execAdvance at h
  split at h
  · exact absurd h (by simp)
  · rename_i e hl
    split at h
    · exact absurd h (by simp)
    · rename_i ex hx
      split at h
      · simp only [Option.some_inj, Prod.mk.injEq] at h
        refine ⟨{ e with ended := true }, ?_, rfl⟩
        rw [← h.2, lookupE_updE, if_pos rfl, hl]
        rfl
      · rename_i i rest hc
        rw [Option.map_eq_some'] at h
        obtain ⟨s2, -, hf⟩ := h
        simp at hf

theorem execLoopR_exhausted {fuel : Nat} {s : BoardState} {eid : Nat} {s' : BoardState}
    (h : execLoopR fuel s eid = some (s', true)) :
    ∃ e', lookupE s' eid = some e' ∧ e'.ended = true := by
  induction fuel generalizing s with
  | zero => exact absurd h (by simp [execLoopR])
  | succ n ih =>
    rw [execLoopR] at h
    cases hadv : execAdvance s eid with
    | none => rw [hadv] at h; exact absurd h (by simp)
    | some r =>
      rw [hadv] at h
      simp only [Option.some_bind] at h
      obtain ⟨b, t⟩ := r
      cases b with
      | false =>
        simp only [Bool.false_eq_true, if_false, Option.some_inj, Prod.mk.injEq] at h
        rw [← h.1]
        exact execAdvance_false hadv
      | true =>
        rw [if_pos rfl] at h
        split at h
        · exact absurd h (by simp)
        · rename_i e hl
          split at h
          · simp at h
          · split at h
            · rename_i j hp
              exact ih h
            · exact ih h

/-- C1: for every entity whose `execute()` is invoked while not `ended`,
when the executor's advance reports that no more work is available, the
entity's `ended` flag is true when `execute()` returns (natural end on
instruction-stream exhaustion).  The Boolean flag of `executeR` records
that the advance loop exited because the executor reported no more
work. -/
theorem execute_exhaustion_sets_ended :
    ∀ (fuel : Nat) (s : BoardState) (eid : Nat) (e : EntityState) (s' : BoardState),
      lookupE s eid = some e → e.ended = false →
      executeR fuel s eid = some (s', true) →
      ∃ e', lookupE s' eid = some e' ∧ e'.ended = true := by
  intro fuel s eid e s' h he hex
  unfold executeR at hex
  rw [h] at hex
  simp only [he, Bool.false_eq_true, if_false] at hex
  cases hp : e.pendingJumpOp with
  | none => rw [hp] at hex; exact execLoopR_exhausted hex
  | some j => rw [hp] at hex; exact execLoopR_exhausted hex

/-- Witness for C1: a one-entity board whose executor is already
exhausted; one `execute` call exits by exhaustion report and marks the
entity ended. -/
theorem execute_exhaustion_sets_ended_witness :
    wExecPost.2 = true ∧ ∃ e', lookupE wExecPost.1 0 = some e' ∧ e'.ended = true := by
  refine ⟨by decide, ?_⟩
  exact execute_exhaustion_sets_ended 1 wBoard 0 wEnt wExecPost.1 (by decide) (by decide)
    (by decide)

/-- C8: the listed runtime operations are silent no-ops that never raise:
a jump to an unknown or disabled label, a jump on a locked entity, a
group operation referencing an undefined group, and spawning an
undefined prototype name (which returns no entity). -/
theorem runtime_noops :
    (∀ (s : BoardState) (eid : Nat) (e : EntityState) (ex : Executor) (l : String)
        (args : List String), lookupE s eid = some e → e.locked = false →
        e.executor = some ex → hasEnabled ex l = false → gotoLabel s eid l args = some s) ∧
    (∀ (s : BoardState) (eid : Nat) (e : EntityState) (l : String) (args : List String),
        lookupE s eid = some e → e.locked = true → gotoLabel s eid l args = some s) ∧
    (∀ (s : BoardState) (g : String) (eid : Nat), lookupA g s.groupStore = none →
        addObjectToGroup s g eid = s ∧ removeObjectFromGroup s g eid = s) ∧
    (∀ (s : BoardState) (n : String) (par : Option Nat) (args : List String),
        lookupA n s.objects = none → spawnObject s n par args = some (s, none)) := by
  refine ⟨?_, ?_, ?_, ?_⟩
  · intro s eid e ex l args h hl hx hE
    simp [gotoLabel, h, hl, hx, hE]
  · intro s eid e l args h hl
    simp [gotoLabel, h, hl]
  · intro s g eid h
    exact ⟨by simp [addObjectToGroup, h], by simp [removeObjectFromGroup, h]⟩
  · intro s n par args h
    simp [spawnObject, h]

/-- Witness for C8 on a concrete one-entity board: unknown label, locked
entity, undefined group, undefined prototype. -/
theorem runtime_noops_witness :
    gotoLabel wBoard 0 "missing" [] = some wBoard ∧
    gotoLabel wBoardL 0 "missing" [] = some wBoardL ∧
    (addObjectToGroup wBoard "g" 0 = wBoard ∧ removeObjectFromGroup wBoard "g" 0 = wBoard) ∧
    spawnObject wBoard "X" none [] = some (wBoard, none) := by
  refine ⟨?_, ?_, ?_, ?_⟩
  · exact runtime_noops.1 wBoard 0 wEnt ⟨[], []⟩ "missing" [] (by decide) (by decide)
      (by decide) (by decide)
  · exact runtime_noops.2.1 wBoardL 0 { wEnt with locked := true, ended := true } "missing" []
      (by decide) (by decide)
  · exact runtime_noops.2.2.1 wBoard "g" 0 (by decide)
  · exact runtime_noops.2.2.2 wBoard "X" none [] (by decide)

/-- C9: registering a prototype under an already-registered name raises
the duplicate-definition configuration error before any mutation, so the
board state is returned unchanged, and the original definition is still
registered and usable: spawning under that name still succeeds and
returns a fresh clone. -/
theorem defineObject_duplicate :
    ∀ (s : BoardState) (n : String) (pid : Nat) (tmpl : EntityState) (params : List String)
      (sc : Script) (args : List String), IdsOk s →
      lookupA n s.objects = some pid → lookupE s pid = some tmpl →
      defineObject s n params sc = (s, Except.error "Duplicate object definition") ∧
      spawnObject s n none args = some (spawnStaged s tmpl 0 none args, some s.nextId) := by
  intro s n pid tmpl params sc args hIds h1 h2
  constructor
  · simp [defineObject, h1]
  · have hFresh := lookupE_none_of_ge hIds (le_refl _)
    simp only [spawnObject, h1, h2]
    exact spawnCore_eq _ _ _ _ hFresh

/-- Witness for C9: a board with prototype `P` registered once. -/
theorem defineObject_duplicate_witness :
    defineObject wDefs "P" [] scYield = (wDefs, Except.error "Duplicate object definition") ∧
    spawnObject wDefs "P" none [] =
      some (spawnStaged wDefs (mkEntity "P" scYield []) 0 none [], some 1) := by
  exact defineObject_duplicate wDefs "P" 0 (mkEntity "P" scYield []) [] scYield []
    (by unfold IdsOk; decide) (by decide) (by decide)

/-- C10: `spawnObject` on a registered name never mutates the stored
prototype template (the registry still maps the name to the same
identifier and the template entity is unchanged in every field), and the
returned clone carries a fresh identifier — unused before the call and
distinct from the template's — with its own empty variables map,
adoptions list and groups list, sharing name, script and `initParams`
with the prototype. -/
theorem spawnObject_frame :
    ∀ (s : BoardState) (n : String) (pid : Nat) (tmpl : EntityState) (par : Option Nat)
      (args : List String) (s' : BoardState) (cid : Nat), IdsOk s →
      lookupA n s.objects = some pid → lookupE s pid = some tmpl →
      spawnObject s n par args = some (s', some cid) →
      cid = s.nextId ∧ lookupE s cid = none ∧ cid ≠ pid ∧
      s'.objects = s.objects ∧ lookupE s' pid = some tmpl ∧
      ∃ c, lookupE s' cid = some c ∧ c.name = tmpl.name ∧ c.script = tmpl.script ∧
        c.initParams = tmpl.initParams ∧ c.vars = [] ∧ c.adoptions = [] ∧ c.groups = [] := by
  intro s n pid tmpl par args s' cid hIds h1 h2 hsp
  have hFresh : lookupE s s.nextId = none := lookupE_none_of_ge hIds (le_refl _)
  have hne : s.nextId ≠ pid := by
    intro hc
    rw [← hc, hFresh] at h2
    exact absurd h2 (by simp)
  cases par with
  | none =>
    simp only [spawnObject, h1, h2] at hsp
    rw [spawnCore_eq _ _ _ _ hFresh] at hsp
    simp only [Option.some_inj, Prod.mk.injEq] at hsp
    obtain ⟨hs', hcid⟩ := hsp
    obtain ⟨ho, _, _, _, _, _, _, _, hother, c, hc, hcs⟩ :=
      spawnStaged_spec tmpl 0 none args hFresh
    subst hcid
    subst hs'
    refine ⟨rfl, hFresh, hne, ho, ?_, ⟨c, hc, hcs.1, hcs.2.1, hcs.2.2.1, hcs.2.2.2.1,
      hcs.2.2.2.2.1, hcs.2.2.2.2.2.1⟩⟩
    rw [hother pid (fun hcc => hne hcc.symm)]
    exact h2
  | some p =>
    simp only [spawnObject, h1, h2] at hsp
    split at hsp
    · exact absurd hsp (by simp)
    · rename_i pe hp
      have hFreshG : lookupE (growFor s pe) (growFor s pe).nextId = none := by
        rw [growFor_nextId, lookupE_growFor]
        exact hFresh
      rw [spawnCore_eq _ _ _ _ hFreshG] at hsp
      simp only [Option.some_inj, Prod.mk.injEq] at hsp
      obtain ⟨hs', hcid⟩ := hsp
      obtain ⟨ho, _, _, _, _, _, _, _, hother, c, hc, hcs⟩ :=
        spawnStaged_spec tmpl (pe.depth + 1) (some p) args hFreshG
      rw [growFor_nextId] at hcid
      subst hcid
      subst hs'
      have hgn : (growFor s pe).nextId = s.nextId := growFor_nextId s pe
      refine ⟨rfl, hFresh, hne, ?_, ?_, ⟨c, ?_, hcs.1, hcs.2.1, hcs.2.2.1, hcs.2.2.2.1,
        hcs.2.2.2.2.1, hcs.2.2.2.2.2.1⟩⟩
      · rw [ho, growFor_objects]
      · rw [hother pid ?_, lookupE_growFor]
        · exact h2
        · rw [hgn]
          exact fun hcc => hne hcc.symm
      · rw [← hgn]
        exact hc

/-- Witness for C10 on a concrete board with prototype `P`. -/
theorem spawnObject_frame_witness :
    lookupE wSpawnPost.1 0 = some (mkEntity "P" scYield []) ∧
    wSpawnPost.1.objects = wDefs.objects ∧
    ∃ c, lookupE wSpawnPost.1 1 = some c ∧ c.name = "P" ∧ c.vars = [] ∧
      c.adoptions = [] ∧ c.groups = [] := by
  have h := spawnObject_frame wDefs "P" 0 (mkEntity "P" scYield []) none [] wSpawnPost.1 1
    (by unfold IdsOk; decide) (by decide) (by decide) (by decide)
  obtain ⟨-, -, -, ho, hpid, c, hc, hname, -, -, hvars, hadop, hgr⟩ := h
  exact ⟨hpid, ho, c, hc, hname, hvars, hadop, hgr⟩

/-- C4 (claim: recursive removal flags the whole chain): in the promoted
chain A(3) → B(4) → C(5), `removeObject(A, true)` flags A and B but
leaves the grandchild C unflagged, because the inner call
`this.removeObject(child)` drops the `recursive` argument; no entity
leaves the instance table before the next `step()`. -/
theorem removeObject_chain_eval :
    stepTr 9 chainS3 = some (chainTick, [5, 4, 3]) ∧
    ((lookupE chainRemoved 3).map fun e => (e.locked, e.ended)) = some (true, true) ∧
    ((lookupE chainRemoved 4).map fun e => (e.locked, e.ended)) = some (true, true) ∧
    ((lookupE chainRemoved 5).map fun e => (e.locked, e.ended)) = some (false, false) ∧
    chainRemoved.deletedObjs = [4, 3] ∧
    allIds chainRemoved.instances = [3, 4, 5] := by
  decide

/-- C5 (claim: the purge removes exactly the queued entities): with
instances 1 and 2 sharing bucket `instances[0]["P"]` and entity 1 queued
twice in `deletedObjs`, the purge of the next `step()` also removes
entity 2 — `splice(indexOf, 1)` with `indexOf = -1` deletes the last
bucket element — even though 2 was never queued and is not even
locked. -/
theorem purge_duplicate_eval :
    purgeTick.instances = [[("P", [1, 2])]] ∧
    purgeDoubled.deletedObjs = [1, 1] ∧
    stepTr 9 purgeDoubled = some (purgeFinal, []) ∧
    purgeFinal.instances = [[("P", [])]] ∧
    purgeFinal.deletedObjs = [] ∧
    ((lookupE purgeFinal 2).map fun e => e.locked) = some false := by
  decide

/-! Mid-tick simulation lemmas: `Mid` is reflexive, transitive, and
preserved by everything that can run during a tick's traversal. -/

theorem isSome_map {α β : Type} (f : α → β) (o : Option α) :
    (o.map f).isSome = o.isSome := by
  cases o <;> rfl

theorem mid_refl (s : BoardState) : Mid s s :=
  ⟨le_refl _, rfl, fun _ h => h, fun _ h => Or.inl h⟩

theorem mid_trans {s t u : BoardState} (h1 : Mid s t) (h2 : Mid t u) : Mid s u := by
  obtain ⟨a1, b1, c1, d1⟩ := h1
  obtain ⟨a2, b2, c2, d2⟩ := h2
  refine ⟨le_trans a1 a2, b2.trans b1, fun k hk => c2 k (c1 k hk), fun id hid => ?_⟩
  rcases d2 id hid with h | ⟨hle, hsome⟩
  · rcases d1 id h with h' | ⟨hle', hsome'⟩
    · exact Or.inl h'
    · exact Or.inr ⟨hle', c2 id hsome'⟩
  · exact Or.inr ⟨le_trans a1 hle, hsome⟩

theorem mid_skel {s s' : BoardState} (h1 : s'.nextId = s.nextId)
    (h2 : s'.finishCount = s.finishCount) (h3 : s'.entities = s.entities)
    (h4 : s'.spawnedObjs = s.spawnedObjs) : Mid s s' := by
  refine ⟨le_of_eq h1.symm, h2, fun k hk => ?_, fun id hid => ?_⟩
  · unfold lookupE
    rw [h3]
    exact hk
  · rw [h4] at hid
    exact Or.inl hid

theorem mid_updE (s : BoardState) (k : Nat) (f : EntityState → EntityState) :
    Mid s (updE s k f) := by
  refine ⟨le_refl _, rfl, fun k' hk => ?_, fun id hid => Or.inl hid⟩
  rw [lookupE_updE]
  split
  · rw [isSome_map]
    exact hk
  · exact hk

theorem mid_gotoLabel {s : BoardState} {eid : Nat} {l : String} {args : List String}
    {s' : BoardState} (h : gotoLabel s eid l args = some s') : Mid s s' := by
  unfold gotoLabel at h
  split at h
  · exact absurd h (by simp)
  · split at h
    · simp only [Option.some_inj] at h
      subst h
      exact mid_refl s
    · split at h
      · exact absurd h (by simp)
      · split at h
        · simp only [Option.some_inj] at h
          subst h
          exact mid_updE _ _ _
        · simp only [Option.some_inj] at h
          subst h
          exact mid_refl s

theorem mid_begin {s : BoardState} {eid : Nat} {args : List String} {s' : BoardState}
    (h : begin s eid args = some s') : Mid s s' :=
  mid_trans (mid_updE s eid _) (mid_gotoLabel h)

theorem mid_addObjectToGroup (s : BoardState) (g : String) (eid : Nat) :
    Mid s (addObjectToGroup s g eid) := by
  unfold addObjectToGroup
  split
  · exact mid_refl s
  · exact mid_trans (mid_skel rfl rfl rfl rfl) (mid_updE _ _ _)

theorem mid_removeObjectFromGroup (s : BoardState) (g : String) (eid : Nat) :
    Mid s (removeObjectFromGroup s g eid) := by
  unfold removeObjectFromGroup
  split
  · exact mid_refl s
  · exact mid_trans (mid_skel rfl rfl rfl rfl) (mid_updE _ _ _)

theorem mid_removeAllGroupsAux (i : Nat) :
    ∀ (s : BoardState) (eid : Nat), Mid s (removeAllGroupsAux i s eid) := by
  induction i with
  | zero => intro s eid; exact mid_refl s
  | succ i ih =>
    intro s eid
    unfold removeAllGroupsAux
    split
    · exact mid_trans (mid_removeObjectFromGroup _ _ _) (ih _ _)
    · exact ih _ _

theorem mid_removeObjectFromAllGroups (s : BoardState) (eid : Nat) :
    Mid s (removeObjectFromAllGroups s eid) :=
  mid_removeAllGroupsAux _ s eid

theorem mid_removeObjectOne (s : BoardState) (eid : Nat) : Mid s (removeObjectOne s eid) := by
  unfold removeObjectOne
  exact mid_trans
    (mid_trans (mid_updE s eid _) (mid_removeObjectFromAllGroups _ _))
    (mid_skel rfl rfl rfl rfl)

theorem mid_foldl {f : BoardState → Nat → BoardState} (hf : ∀ s x, Mid s (f s x)) :
    ∀ (l : List Nat) (s : BoardState), Mid s (l.foldl f s) := by
  intro l
  induction l with
  | nil => intro s; exact mid_refl s
  | cons x xs ih => intro s; exact mid_trans (hf s x) (ih (f s x))

theorem mid_removeObject (s : BoardState) (eid : Nat) (recursive : Bool) :
    Mid s (removeObject s eid recursive) := by
  unfold removeObject
  cases recursive with
  | false =>
    simp only [Bool.false_eq_true, if_false]
    exact mid_removeObjectOne s eid
  | true =>
    simp only [if_true]
    exact mid_trans (mid_foldl mid_removeObjectOne _ s) (mid_removeObjectOne _ _)

theorem lookupA_append_self_isSome {α β : Type} [DecidableEq α] (l : List (α × β))
    (k : α) (v : β) : (lookupA k (l ++ [(k, v)])).isSome = true := by
  cases hl : lookupA k l with
  | some w => rw [lookupA_append_of_some hl]; rfl
  | none => rw [lookupA_append_of_none hl]; simp [lookupA]

theorem mid_newEntity (s : BoardState) (n : String) (sc : Script) (p : List String) :
    Mid s (newEntity s n sc p).1 := by
  refine ⟨Nat.le_succ _, rfl, fun k hk => ?_, fun id hid => Or.inl hid⟩
  cases hl : lookupE s k with
  | none => rw [hl] at hk; simp at hk
  | some e =>
    show (lookupA k (s.entities ++ [(s.nextId, mkEntity n sc p)])).isSome = true
    rw [lookupA_append_of_some hl]
    rfl

theorem mid_spawnCore {s : BoardState} {tmpl : EntityState} {d : Nat} {par : Option Nat}
    {args : List String} {s' : BoardState} {r : Option Nat}
    (h : spawnCore s tmpl d par args = some (s', r)) : Mid s s' := by
  unfold spawnCore at h
  rw [Option.map_eq_some'] at h
  obtain ⟨X, hX, hg⟩ := h
  have hmidX : Mid s X :=
    mid_trans (mid_trans (mid_newEntity s tmpl.name tmpl.script tmpl.initParams)
      (mid_updE _ _ _)) (mid_begin hX)
  have hsetup : (lookupE (spawnSetup s tmpl d par) s.nextId).isSome = true := by
    unfold spawnSetup
    rw [lookupE_updE, if_pos rfl, isSome_map]
    exact lookupA_append_self_isSome s.entities s.nextId _
  have hsome : (lookupE X s.nextId).isSome = true := by
    have h2 : (lookupE (updE (spawnSetup s tmpl d par) s.nextId
        fun e => { e with cycleEnded := false }) s.nextId).isSome = true := by
      rw [lookupE_updE, if_pos rfl, isSome_map]
      exact hsetup
    exact (mid_gotoLabel (begin_def _ _ _ ▸ hX)).2.2.1 s.nextId h2
  have hs' : s' = { X with spawnedObjs := X.spawnedObjs ++ [s.nextId] } :=
    (congrArg Prod.fst hg).symm
  subst hs'
  obtain ⟨a, b, c, d1⟩ := hmidX
  refine ⟨a, b, fun k hk => c k hk, fun id hid => ?_⟩
  simp only [List.mem_append, List.mem_singleton] at hid
  rcases hid with hid | hid
  · rcases d1 id hid with h' | ⟨hle, hs⟩
    · exact Or.inl h'
    · exact Or.inr ⟨hle, hs⟩
  · subst hid
    exact Or.inr ⟨le_refl _, hsome⟩

theorem mid_growFor (s : BoardState) (pe : EntityState) : Mid s (growFor s pe) := by
  unfold growFor
  split
  · exact mid_skel rfl rfl rfl rfl
  · exact mid_refl s

theorem mid_spawnObject {s : BoardState} {n : String} {par : Option Nat}
    {args : List String} {s' : BoardState} {r : Option Nat}
    (h : spawnObject s n par args = some (s', r)) : Mid s s' := by
  unfold spawnObject at h
  split at h
  · simp only [Option.some_inj] at h
    have hs : s = s' := congrArg Prod.fst h
    rw [← hs]
    exact mid_refl s
  · split at h
    · simp only [Option.some_inj] at h
      have hs : s = s' := congrArg Prod.fst h
      rw [← hs]
      exact mid_refl s
    · split at h
      · exact mid_spawnCore h
      · split at h
        · exact absurd h (by simp)
        · exact mid_trans (mid_growFor _ _) (mid_spawnCore h)

theorem mid_replaceObject {s : BoardState} {t : Nat} {n : String} {args : List String}
    {s' : BoardState} (h : replaceObject s t n args = some s') : Mid s s' := by
  unfold replaceObject at h
  split at h
  · exact absurd h (by simp)
  · split at h
    · exact absurd h (by simp)
    · split at h
      · exact absurd h (by simp)
      · rw [Option.map_eq_some'] at h
        obtain ⟨⟨s1, newId⟩, hsp, heq⟩ := h
        have hs' : s' = removeObjectOne ((getChildObjects s1 t).foldl
            (fun acc cid => updE acc cid fun c => { c with parent := newId }) s1) t :=
          heq.symm
        subst hs'
        exact mid_trans (mid_spawnObject hsp)
          (mid_trans (mid_foldl (fun s x => mid_updE s x _) _ s1) (mid_removeObjectOne _ _))

theorem mid_applyInstr {s : BoardState} {selfId : Nat} {i : Instr} {s' : BoardState}
    (h : applyInstr s selfId i = some s') : Mid s s' := by
  cases i with
  | nop =>
    simp only [applyInstr, Option.some_inj] at h
    subst h
    exact mid_refl s
  | endCycle =>
    simp only [applyInstr, Option.some_inj] at h
    subst h
    exact mid_updE _ _ _
  | gotoI target l args => exact mid_gotoLabel h
  | spawnI n par args =>
    simp only [applyInstr] at h
    rw [Option.map_eq_some'] at h
    obtain ⟨⟨s1, r⟩, hsp, heq⟩ := h
    rw [← heq]
    exact mid_spawnObject hsp
  | removeI target r =>
    simp only [applyInstr, Option.some_inj] at h
    subst h
    exact mid_removeObject _ _ _
  | replaceI target n args => exact mid_replaceObject h
  | terminateI =>
    simp only [applyInstr, Option.some_inj] at h
    subst h
    exact mid_skel rfl rfl rfl rfl
  | addToGroupI g target =>
    simp only [applyInstr, Option.some_inj] at h
    subst h
    exact mid_addObjectToGroup _ _ _
  | removeFromGroupI g target =>
    simp only [applyInstr, Option.some_inj] at h
    subst h
    exact mid_removeObjectFromGroup _ _ _

theorem mid_execAdvance {s : BoardState} {eid : Nat} {b : Bool} {t : BoardState}
    (h : execAdvance s eid = some (b, t)) : Mid s t := by
  unfold execAdvance at h
  split at h
  · exact absurd h (by simp)
  · split at h
    · exact absurd h (by simp)
    · split at h
      · simp only [Option.some_inj, Prod.mk.injEq] at h
        rw [← h.2]
        exact mid_updE _ _ _
      · rw [Option.map_eq_some'] at h
        obtain ⟨s2, ha, heq⟩ := h
        have hs : s2 = t := congrArg Prod.snd heq
        rw [← hs]
        exact mid_trans (mid_updE _ _ _) (mid_applyInstr ha)

theorem mid_execLoopR {fuel : Nat} :
    ∀ {s : BoardState} {eid : Nat} {s' : BoardState} {b : Bool},
      execLoopR fuel s eid = some (s', b) → Mid s s' := by
  induction fuel with
  | zero => intro s eid s' b h; exact absurd h (by simp [execLoopR])
  | succ n ih =>
    intro s eid s' b h
    rw [execLoopR] at h
    cases hadv : execAdvance s eid with
    | none => rw [hadv] at h; exact absurd h (by simp)
    | some r =>
      rw [hadv] at h
      simp only [Option.some_bind] at h
      obtain ⟨rb, t⟩ := r
      have hmt : Mid s t := mid_execAdvance hadv
      cases rb with
      | false =>
        simp only [Bool.false_eq_true, if_false, Option.some_inj, Prod.mk.injEq] at h
        rw [← h.1]
        exact hmt
      | true =>
        rw [if_pos rfl] at h
        split at h
        · exact absurd h (by simp)
        · split at h
          · simp only [Option.some_inj, Prod.mk.injEq] at h
            rw [← h.1]
            exact hmt
          · split at h
            · exact mid_trans hmt (mid_trans (mid_updE _ _ _) (ih h))
            · exact mid_trans hmt (ih h)

theorem mid_executeR {fuel : Nat} {s : BoardState} {eid : Nat} {s' : BoardState} {b : Bool}
    (h : executeR fuel s eid = some (s', b)) : Mid s s' := by
  unfold executeR at h
  split at h
  · exact absurd h (by simp)
  · split at h
    · simp only [Option.some_inj, Prod.mk.injEq] at h
      rw [← h.1]
      exact mid_updE _ _ _
    · split at h
      · exact mid_trans (mid_updE _ _ _) (mid_trans (mid_updE _ _ _) (mid_execLoopR h))
      · exact mid_trans (mid_updE _ _ _) (mid_execLoopR h)

theorem mid_execute {fuel : Nat} {s : BoardState} {eid : Nat} {s' : BoardState}
    (h : execute fuel s eid = some s') : Mid s s' := by
  unfold execute at h
  rw [Option.map_eq_some'] at h
  obtain ⟨⟨s1, b⟩, hex, heq⟩ := h
  rw [← heq]
  exact mid_executeR hex

theorem mid_execSchedule {fuel : Nat} :
    ∀ (l : List Nat) (s : BoardState) (s' : BoardState) (tr : List Nat),
      execSchedule fuel l s = some (s', tr) → Mid s s' := by
  intro l
  induction l with
  | nil =>
    intro s s' tr h
    simp only [execSchedule, Option.some_inj, Prod.mk.injEq] at h
    rw [← h.1]
    exact mid_refl s
  | cons x xs ih =>
    intro s s' tr h
    simp only [execSchedule] at h
    cases hex : execute fuel s x with
    | none => rw [hex] at h; exact absurd h (by simp)
    | some s1 =>
      rw [hex] at h
      simp only [Option.some_bind] at h
      rw [Option.map_eq_some'] at h
      obtain ⟨⟨s2, tr2⟩, hrest, heq⟩ := h
      have hs : s2 = s' := congrArg Prod.fst heq
      rw [← hs]
      exact mid_trans (mid_execute hex) (ih _ _ _ hrest)

theorem execSchedule_trace {fuel : Nat} :
    ∀ (l : List Nat) (s : BoardState) (s' : BoardState) (tr : List Nat),
      execSchedule fuel l s = some (s', tr) → tr = l := by
  intro l
  induction l with
  | nil =>
    intro s s' tr h
    simp only [execSchedule, Option.some_inj, Prod.mk.injEq] at h
    exact h.2.symm
  | cons x xs ih =>
    intro s s' tr h
    simp only [execSchedule] at h
    cases hex : execute fuel s x with
    | none => rw [hex] at h; exact absurd h (by simp)
    | some s1 =>
      rw [hex] at h
      simp only [Option.some_bind] at h
      rw [Option.map_eq_some'] at h
      obtain ⟨⟨s2, tr2⟩, hrest, heq⟩ := h
      have hs : x :: tr2 = tr := congrArg Prod.snd heq
      rw [← hs, ih _ _ _ hrest]

theorem mid_promoteOne {s : BoardState} {eid : Nat} {s' : BoardState}
    (h : promoteOne s eid = some s') : Mid s s' := by
  unfold promoteOne at h
  split at h
  · simp only [Option.some_inj] at h
    subst h
    exact mid_refl s
  · split at h
    · exact absurd h (by simp)
    · simp only [Option.some_inj] at h
      subst h
      exact mid_skel rfl rfl rfl rfl

theorem mid_promoteAll :
    ∀ (q : List Nat) (s : BoardState) (s' : BoardState),
      promoteAll q s = some s' → Mid s s' := by
  intro q
  induction q with
  | nil =>
    intro s s' h
    simp only [promoteAll, Option.some_inj] at h
    subst h
    exact mid_refl s
  | cons x xs ih =>
    intro s s' h
    simp only [promoteAll] at h
    cases hp : promoteOne s x with
    | none => rw [hp] at h; exact absurd h (by simp)
    | some s1 =>
      rw [hp] at h
      simp only [Option.some_bind] at h
      exact mid_trans (mid_promoteOne hp) (ih _ _ h)

theorem mid_purgeOne {s : BoardState} {eid : Nat} {s' : BoardState}
    (h : purgeOne s eid = some s') : Mid s s' := by
  unfold purgeOne at h
  split at h
  · simp only [Option.some_inj] at h
    subst h
    exact mid_refl s
  · split at h
    · exact absurd h (by simp)
    · split at h
      · exact absurd h (by simp)
      · simp only [Option.some_inj] at h
        subst h
        exact mid_skel rfl rfl rfl rfl

theorem mid_purgeAll :
    ∀ (q : List Nat) (s : BoardState) (s' : BoardState),
      purgeAll q s = some s' → Mid s s' := by
  intro q
  induction q with
  | nil =>
    intro s s' h
    simp only [purgeAll, Option.some_inj] at h
    subst h
    exact mid_refl s
  | cons x xs ih =>
    intro s s' h
    simp only [purgeAll] at h
    cases hp : purgeOne s x with
    | none => rw [hp] at h; exact absurd h (by simp)
    | some s1 =>
      rw [hp] at h
      simp only [Option.some_bind] at h
      exact mid_trans (mid_purgeOne hp) (ih _ _ h)

theorem mid_clearSpawned (s : BoardState) : Mid s { s with spawnedObjs := [] } :=
  ⟨le_refl _, rfl, fun _ h => h, fun id hid => absurd hid (List.not_mem_nil id)⟩

theorem mid_clearDeleted (s : BoardState) : Mid s { s with deletedObjs := [] } :=
  mid_skel rfl rfl rfl rfl

theorem mid_phases {s : BoardState} {s' : BoardState} (h : phases s = some s') :
    Mid s s' := by
  unfold phases at h
  cases hp : promoteAll s.spawnedObjs s with
  | none => rw [hp] at h; exact absurd h (by simp)
  | some s1 =>
    rw [hp] at h
    simp only [Option.some_bind] at h
    rw [Option.map_eq_some'] at h
    obtain ⟨s2, hpu, heq⟩ := h
    rw [← heq]
    exact mid_trans (mid_promoteAll _ _ _ hp)
      (mid_trans (mid_clearSpawned s1) (mid_trans (mid_purgeAll _ _ _ hpu) (mid_clearDeleted s2)))

/-- C2: a `step()` on a board whose `terminated` flag is already set is a
complete no-op (state unchanged, nothing executed, callback not
re-invoked); a `step()` entered with the flag clear runs the full
traversal — the trace is exactly the schedule fixed after the
promote/purge phases, regardless of a mid-tick `terminate()` — and the
finish callback fires exactly once, at the end of that tick, precisely
when the flag became true during it.  Since the first clause applies to
every state, all calls after the terminating tick are no-ops. -/
theorem step_termination_timing :
    ∀ (fuel : Nat) (s : BoardState),
      (s.terminated = true → stepTr fuel s = some (s, [])) ∧
      (s.terminated = false → ∀ (s' : BoardState) (tr : List Nat),
        stepTr fuel s = some (s', tr) →
        (∃ s2, phases s = some s2 ∧ tr = schedule s2) ∧
        s'.finishCount = s.finishCount + (if s'.terminated = true then 1 else 0)) := by
  intro fuel s
  constructor
  · intro ht
    unfold stepTr
    rw [if_pos ht]
  · intro ht s' tr h
    unfold stepTr at h
    rw [if_neg (by rw [ht]; exact Bool.false_ne_true)] at h
    cases hp : phases s with
    | none => rw [hp] at h; exact absurd h (by simp)
    | some s2 =>
      rw [hp] at h
      simp only [Option.some_bind] at h
      rw [Option.map_eq_some'] at h
      obtain ⟨⟨s3, tr3⟩, hex, heq⟩ := h
      have htr3 : tr3 = schedule s2 := execSchedule_trace _ _ _ _ hex
      have hf2 : s2.finishCount = s.finishCount := (mid_phases hp).2.1
      have hf3 : s3.finishCount = s2.finishCount := (mid_execSchedule _ _ _ _ hex).2.1
      have hs' : s' = if s3.terminated = true then
          { s3 with finishCount := s3.finishCount + 1 } else s3 :=
        (congrArg Prod.fst heq).symm
      have htr : tr = tr3 := (congrArg Prod.snd heq).symm
      subst hs' htr
      refine ⟨⟨s2, rfl, htr3⟩, ?_⟩
      by_cases h3 : s3.terminated = true
      · simp [h3, hf3, hf2]
      · simp [h3, hf3, hf2]

/-- Witness for C2 on the termination scenario: entity 2 terminates the
board mid-tick, entity 3 still executes in the same tick (the trace
equals the full schedule), the callback counter rises by exactly one, and
the following `step()` is a no-op. -/
theorem step_termination_timing_witness :
    (∃ s2, phases termS2 = some s2 ∧ termPost.2 = schedule s2) ∧
    termPost.1.finishCount = termS2.finishCount +
      (if termPost.1.terminated = true then 1 else 0) ∧
    stepTr 9 termPost.1 = some (termPost.1, []) := by
  have h1 := (step_termination_timing 9 termS2).2 (by decide) termPost.1 termPost.2 (by decide)
  have h2 := (step_termination_timing 9 termPost.1).1 (by decide)
  exact ⟨h1.1, h1.2, h2⟩

/-! Membership lemmas for the instance registry. -/

theorem get?_set_self {α : Type} (l : List α) (i : Nat) (v : α) (h : i < l.length) :
    (l.set i v).get? i = some v := by
  induction l generalizing i with
  | nil => simp at h
  | cons a as ih =>
    cases i with
    | zero => rfl
    | succ i => exact ih i (by simpa using h)

theorem get?_set_ne {α : Type} (l : List α) (i j : Nat) (v : α) (h : j ≠ i) :
    (l.set i v).get? j = l.get? j := by
  induction l generalizing i j with
  | nil => cases i <;> rfl
  | cons a as ih =>
    cases i with
    | zero =>
      cases j with
      | zero => exact absurd rfl h
      | succ j => rfl
    | succ i =>
      cases j with
      | zero => rfl
      | succ j => exact ih i j (fun hc => h (by rw [hc]))

theorem get?_some_lt {α : Type} {l : List α} {i : Nat} {v : α} (h : l.get? i = some v) :
    i < l.length := by
  induction l generalizing i with
  | nil => simp [List.get?] at h
  | cons a as ih =>
    cases i with
    | zero => simp
    | succ i => simpa using ih h

theorem bucketIds_cons (p : String × List Nat) (ps : Level) :
    bucketIds (p :: ps) = p.2 ++ bucketIds ps := rfl

theorem allIds_cons (lvl : Level) (tl : List Level) :
    allIds (lvl :: tl) = bucketIds lvl ++ allIds tl := rfl

theorem mem_allIds_iff {inst : List Level} {id : Nat} :
    id ∈ allIds inst ↔ ∃ i lvl, inst.get? i = some lvl ∧ id ∈ bucketIds lvl := by
  induction inst with
  | nil =>
    constructor
    · intro h
      exact absurd h (List.not_mem_nil id)
    · rintro ⟨i, lvl, hi, -⟩
      cases i <;> simp [List.get?] at hi
  | cons lvl0 tl ih =>
    rw [allIds_cons, List.mem_append, ih]
    constructor
    · rintro (h | ⟨i, lvl, hi, hmem⟩)
      · exact ⟨0, lvl0, rfl, h⟩
      · exact ⟨i + 1, lvl, hi, hmem⟩
    · rintro ⟨i, lvl, hi, hmem⟩
      cases i with
      | zero =>
        injection hi with hi
        subst hi
        exact Or.inl hmem
      | succ i => exact Or.inr ⟨i, lvl, hi, hmem⟩

theorem mem_allIds_exists {inst : List Level} {id : Nat} :
    id ∈ allIds inst ↔ ∃ lvl ∈ inst, id ∈ bucketIds lvl := by
  induction inst with
  | nil =>
    constructor
    · intro h
      exact absurd h (List.not_mem_nil id)
    · rintro ⟨lvl, hl, -⟩
      exact absurd hl (List.not_mem_nil lvl)
  | cons lvl0 tl ih =>
    rw [allIds_cons, List.mem_append, ih]
    constructor
    · rintro (h | ⟨lvl, hl, hmem⟩)
      · exact ⟨lvl0, List.mem_cons_self _ _, h⟩
      · exact ⟨lvl, List.mem_cons_of_mem _ hl, hmem⟩
    · rintro ⟨lvl, hl, hmem⟩
      rcases List.mem_cons.mp hl with rfl | hl
      · exact Or.inl hmem
      · exact Or.inr ⟨lvl, hl, hmem⟩

theorem mem_schedule_iff {s : BoardState} {id : Nat} :
    id ∈ schedule s ↔ id ∈ allIds s.instances := by
  unfold schedule
  rw [mem_allIds_exists, mem_allIds_exists]
  constructor
  · rintro ⟨lvl, hl, hmem⟩
    exact ⟨lvl, List.mem_reverse.mp hl, hmem⟩
  · rintro ⟨lvl, hl, hmem⟩
    exact ⟨lvl, List.mem_reverse.mpr hl, hmem⟩

theorem lookupA_bucket_sub {level : Level} {nm : String} {bucket : List Nat}
    (h : lookupA nm level = some bucket) : ∀ x ∈ bucket, x ∈ bucketIds level := by
  induction level with
  | nil => simp [lookupA] at h
  | cons p ps ih =>
    simp only [lookupA] at h
    rw [bucketIds_cons]
    split at h
    · injection h with h
      subst h
      intro x hx
      exact List.mem_append_left _ hx
    · intro x hx
      exact List.mem_append_right _ (ih h x hx)

theorem bucketIds_asetA_cases {nm : String} {new : List Nat} {level : Level} :
    ∀ x ∈ bucketIds (asetA nm new level), x ∈ bucketIds level ∨ x ∈ new := by
  induction level with
  | nil =>
    intro x hx
    simp only [asetA, bucketIds_cons] at hx
    rcases List.mem_append.mp hx with h | h
    · exact Or.inr h
    · exact absurd h (List.not_mem_nil x)
  | cons p ps ih =>
    intro x hx
    simp only [asetA] at hx
    split at hx
    · rw [bucketIds_cons] at hx
      rcases List.mem_append.mp hx with h | h
      · exact Or.inr h
      · exact Or.inl (by rw [bucketIds_cons]; exact List.mem_append_right _ h)
    · rw [bucketIds_cons] at hx
      rcases List.mem_append.mp hx with h | h
      · exact Or.inl (by rw [bucketIds_cons]; exact List.mem_append_left _ h)
      · rcases ih x h with h' | h'
        · exact Or.inl (by rw [bucketIds_cons]; exact List.mem_append_right _ h')
        · exact Or.inr h'

theorem bucketIds_asetA_super {nm : String} {old new : List Nat} {level : Level}
    (hlk : lookupA nm level = some old) (hsub : ∀ y ∈ old, y ∈ new) :
    ∀ x ∈ bucketIds level, x ∈ bucketIds (asetA nm new level) := by
  induction level with
  | nil => simp [lookupA] at hlk
  | cons p ps ih =>
    simp only [lookupA] at hlk
    intro x hx
    rw [bucketIds_cons] at hx
    simp only [asetA]
    split at hlk
    · rename_i hp
      injection hlk with hlk
      rw [if_pos hp, bucketIds_cons]
      rcases List.mem_append.mp hx with h | h
      · exact List.mem_append_left _ (hsub x (hlk ▸ h))
      · exact List.mem_append_right _ h
    · rename_i hp
      rw [if_neg hp, bucketIds_cons]
      rcases List.mem_append.mp hx with h | h
      · exact List.mem_append_left _ h
      · exact List.mem_append_right _ (ih hlk x h)

theorem bucketIds_asetA_new {nm : String} {new : List Nat} {level : Level} :
    ∀ x ∈ new, x ∈ bucketIds (asetA nm new level) := by
  induction level with
  | nil =>
    intro x hx
    simp only [asetA, bucketIds_cons]
    exact List.mem_append_left _ hx
  | cons p ps ih =>
    intro x hx
    simp only [asetA]
    split
    · rw [bucketIds_cons]
      exact List.mem_append_left _ hx
    · rw [bucketIds_cons]
      exact List.mem_append_right _ (ih x hx)

theorem removeFirst_subset {α : Type} [DecidableEq α] :
    ∀ {l l' : List α} {x : α}, removeFirst l x = some l' → ∀ y ∈ l', y ∈ l := by
  intro l
  induction l with
  | nil => intro l' x h; simp [removeFirst] at h
  | cons a as ih =>
    intro l' x h
    simp only [removeFirst] at h
    split at h
    · injection h with h
      subst h
      intro y hy
      exact List.mem_cons_of_mem _ hy
    · rw [Option.map_eq_some'] at h
      obtain ⟨l'', h1, h2⟩ := h
      subst h2
      intro y hy
      rcases List.mem_cons.mp hy with rfl | hy
      · exact List.mem_cons_self _ _
      · exact List.mem_cons_of_mem _ (ih h1 y hy)

theorem dropLast_mem {α : Type} : ∀ {l : List α} {y : α}, y ∈ l.dropLast → y ∈ l := by
  intro l
  induction l with
  | nil => intro y h; exact absurd h (List.not_mem_nil y)
  | cons a as ih =>
    intro y h
    cases as with
    | nil => exact absurd h (List.not_mem_nil y)
    | cons b bs =>
      rcases List.mem_cons.mp h with rfl | h
      · exact List.mem_cons_self _ _
      · exact List.mem_cons_of_mem _ (ih h)

theorem spliceIndexOf_subset {l : List Nat} {x : Nat} :
    ∀ y ∈ spliceIndexOf l x, y ∈ l := by
  unfold spliceIndexOf
  cases h : removeFirst l x with
  | some l' =>
    intro y hy
    exact removeFirst_subset h y hy
  | none =>
    intro y hy
    exact dropLast_mem hy

theorem allIds_set_mono {inst : List Level} {i : Nat} {lvlOld lvlNew : Level}
    (hget : inst.get? i = some lvlOld)
    (hm : ∀ x ∈ bucketIds lvlOld, x ∈ bucketIds lvlNew) :
    ∀ id ∈ allIds inst, id ∈ allIds (inst.set i lvlNew) := by
  intro id hid
  rw [mem_allIds_iff] at hid ⊢
  obtain ⟨j, lvl, hj, hmem⟩ := hid
  by_cases hij : j = i
  · subst hij
    have hlvl : lvl = lvlOld := by
      have := hget.symm.trans hj
      injection this with h
      exact h.symm
    subst hlvl
    exact ⟨j, lvlNew, get?_set_self _ _ _ (get?_some_lt hj), hm id hmem⟩
  · exact ⟨j, lvl, by rw [get?_set_ne _ _ _ _ hij]; exact hj, hmem⟩

theorem allIds_set_cases {inst : List Level} {i : Nat} {lvlOld lvlNew : Level}
    {extra : List Nat} (hget : inst.get? i = some lvlOld)
    (hc : ∀ x ∈ bucketIds lvlNew, x ∈ bucketIds lvlOld ∨ x ∈ extra) :
    ∀ id ∈ allIds (inst.set i lvlNew), id ∈ allIds inst ∨ id ∈ extra := by
  intro id hid
  rw [mem_allIds_iff] at hid
  obtain ⟨j, lvl, hj, hmem⟩ := hid
  by_cases hij : j = i
  · subst hij
    have hlvl : lvl = lvlNew := by
      have h2 := (get?_set_self inst j lvlNew (get?_some_lt hget)).symm.trans hj
      injection h2 with h2
      exact h2.symm
    subst hlvl
    rcases hc id hmem with h | h
    · exact Or.inl (mem_allIds_iff.mpr ⟨j, lvlOld, hget, h⟩)
    · exact Or.inr h
  · rw [get?_set_ne _ _ _ _ hij] at hj
    exact Or.inl (mem_allIds_iff.mpr ⟨j, lvl, hj, hmem⟩)

theorem allIds_set_new {inst : List Level} {i : Nat} {lvlNew : Level} {eid : Nat}
    (hlt : i < inst.length) (hin : eid ∈ bucketIds lvlNew) :
    eid ∈ allIds (inst.set i lvlNew) :=
  mem_allIds_iff.mpr ⟨i, lvlNew, get?_set_self _ _ _ hlt, hin⟩

theorem bucketIds_append (l₁ l₂ : Level) :
    bucketIds (l₁ ++ l₂) = bucketIds l₁ ++ bucketIds l₂ := by
  induction l₁ with
  | nil => rfl
  | cons p ps ih => simp [bucketIds_cons, ih]

/-- Characterisation of one promote iteration: field skeleton unchanged,
instance membership grows by exactly the promoted identifier, and the
promoted identifier lands in the registry whenever it is allocated. -/
theorem promoteOne_spec {s : BoardState} {eid : Nat} {s' : BoardState}
    (h : promoteOne s eid = some s') :
    (∀ id, id ∈ allIds s'.instances → id ∈ allIds s.instances ∨ id = eid) ∧
    (∀ id, id ∈ allIds s.instances → id ∈ allIds s'.instances) ∧
    ((lookupE s eid).isSome = true → eid ∈ allIds s'.instances) ∧
    s'.nextId = s.nextId ∧ s'.entities = s.entities ∧ s'.spawnedObjs = s.spawnedObjs ∧
    s'.deletedObjs = s.deletedObjs ∧ s'.terminated = s.terminated := by
  unfold promoteOne at h
  split at h
  · rename_i hl
    simp only [Option.some_inj] at h
    subst h
    refine ⟨fun id hid => Or.inl hid, fun id hid => hid, fun hs => ?_, rfl, rfl, rfl, rfl, rfl⟩
    rw [hl] at hs
    simp at hs
  · rename_i e hl
    split at h
    · exact absurd h (by simp)
    · rename_i level hget
      simp only [Option.some_inj] at h
      subst h
      have hbucket : ∀ x ∈ bucketIds (match lookupA e.name level with
          | some bucket => asetA e.name (bucket ++ [eid]) level
          | none => level ++ [(e.name, [eid])]),
          x ∈ bucketIds level ∨ x ∈ ([eid] : List Nat) := by
        split
        · rename_i bucket hba
          intro x hx
          rcases bucketIds_asetA_cases x hx with h' | h'
          · exact Or.inl h'
          · rcases List.mem_append.mp h' with h'' | h''
            · exact Or.inl (lookupA_bucket_sub hba x h'')
            · exact Or.inr h''
        · intro x hx
          rw [bucketIds_append] at hx
          rcases List.mem_append.mp hx with h' | h'
          · exact Or.inl h'
          · right
            simpa [bucketIds_cons, bucketIds] using h'
      have hsup : ∀ x ∈ bucketIds level, x ∈ bucketIds (match lookupA e.name level with
          | some bucket => asetA e.name (bucket ++ [eid]) level
          | none => level ++ [(e.name, [eid])]) := by
        split
        · rename_i bucket hba
          exact bucketIds_asetA_super hba (fun y hy => List.mem_append_left _ hy)
        · intro x hx
          rw [bucketIds_append]
          exact List.mem_append_left _ hx
      have hnew : eid ∈ bucketIds (match lookupA e.name level with
          | some bucket => asetA e.name (bucket ++ [eid]) level
          | none => level ++ [(e.name, [eid])]) := by
        split
        · exact bucketIds_asetA_new eid (List.mem_append_right _ (List.mem_singleton.mpr rfl))
        · rw [bucketIds_append]
          refine List.mem_append_right _ ?_
          simp [bucketIds_cons, bucketIds]
      refine ⟨?_, ?_, ?_, rfl, rfl, rfl, rfl, rfl⟩
      · intro id hid
        rcases allIds_set_cases hget hbucket id hid with h' | h'
        · exact Or.inl h'
        · exact Or.inr (List.mem_singleton.mp h')
      · intro id hid
        exact allIds_set_mono hget hsup id hid
      · intro _
        exact allIds_set_new (get?_some_lt hget) hnew

theorem promoteAll_spec :
    ∀ (q : List Nat) (s s' : BoardState), promoteAll q s = some s' →
      (∀ id, id ∈ allIds s'.instances → id ∈ allIds s.instances ∨ id ∈ q) ∧
      (∀ id, id ∈ allIds s.instances → id ∈ allIds s'.instances) ∧
      s'.nextId = s.nextId ∧ s'.entities = s.entities ∧ s'.spawnedObjs = s.spawnedObjs ∧
      s'.deletedObjs = s.deletedObjs ∧ s'.terminated = s.terminated := by
  intro q
  induction q with
  | nil =>
    intro s s' h
    simp only [promoteAll, Option.some_inj] at h
    subst h
    exact ⟨fun id hid => Or.inl hid, fun id hid => hid, rfl, rfl, rfl, rfl, rfl⟩
  | cons x xs ih =>
    intro s s' h
    simp only [promoteAll] at h
    cases hp : promoteOne s x with
    | none => rw [hp] at h; exact absurd h (by simp)
    | some s1 =>
      rw [hp] at h
      simp only [Option.some_bind] at h
      obtain ⟨c1, m1, -, n1, e1, sp1, d1, t1⟩ := promoteOne_spec hp
      obtain ⟨c2, m2, n2, e2, sp2, d2, t2⟩ := ih s1 s' h
      refine ⟨?_, fun id hid => m2 id (m1 id hid), n2.trans n1, e2.trans e1,
        sp2.trans sp1, d2.trans d1, t2.trans t1⟩
      intro id hid
      rcases c2 id hid with h' | h'
      · rcases c1 id h' with h'' | h''
        · exact Or.inl h''
        · exact Or.inr (h'' ▸ List.mem_cons_self _ _)
      · exact Or.inr (List.mem_cons_of_mem _ h')

theorem promoteAll_mem :
    ∀ (q : List Nat) (s s' : BoardState), promoteAll q s = some s' →
      ∀ cid ∈ q, (lookupE s cid).isSome = true → cid ∈ allIds s'.instances := by
  intro q
  induction q with
  | nil =>
    intro s s' h cid hcid
    exact absurd hcid (List.not_mem_nil cid)
  | cons x xs ih =>
    intro s s' h cid hcid hsome
    simp only [promoteAll] at h
    cases hp : promoteOne s x with
    | none => rw [hp] at h; exact absurd h (by simp)
    | some s1 =>
      rw [hp] at h
      simp only [Option.some_bind] at h
      obtain ⟨c1, m1, i1, n1, e1, sp1, d1, t1⟩ := promoteOne_spec hp
      rcases List.mem_cons.mp hcid with rfl | hcid'
      · exact (promoteAll_spec xs s1 s' h).2.1 cid (i1 hsome)
      · refine ih s1 s' h cid hcid' ?_
        unfold lookupE
        rw [e1]
        exact hsome

theorem purgeOne_spec {s : BoardState} {eid : Nat} {s' : BoardState}
    (h : purgeOne s eid = some s') :
    (∀ id, id ∈ allIds s'.instances → id ∈ allIds s.instances) ∧
    s'.nextId = s.nextId ∧ s'.entities = s.entities ∧ s'.spawnedObjs = s.spawnedObjs ∧
    s'.terminated = s.terminated := by
  unfold purgeOne at h
  split at h
  · simp only [Option.some_inj] at h
    subst h
    exact ⟨fun id hid => hid, rfl, rfl, rfl, rfl⟩
  · rename_i e hl
    split at h
    · exact absurd h (by simp)
    · rename_i level hget
      split at h
      · exact absurd h (by simp)
      · rename_i bucket hba
        simp only [Option.some_inj] at h
        subst h
        refine ⟨?_, rfl, rfl, rfl, rfl⟩
        intro id hid
        have hc : ∀ x ∈ bucketIds (asetA e.name (spliceIndexOf bucket eid) level),
            x ∈ bucketIds level ∨ x ∈ ([] : List Nat) := by
          intro x hx
          rcases bucketIds_asetA_cases x hx with h' | h'
          · exact Or.inl h'
          · exact Or.inl (lookupA_bucket_sub hba x (spliceIndexOf_subset x h'))
        rcases allIds_set_cases hget hc id hid with h' | h'
        · exact h'
        · exact absurd h' (List.not_mem_nil id)

theorem purgeAll_spec :
    ∀ (q : List Nat) (s s' : BoardState), purgeAll q s = some s' →
      (∀ id, id ∈ allIds s'.instances → id ∈ allIds s.instances) ∧
      s'.nextId = s.nextId ∧ s'.entities = s.entities ∧ s'.spawnedObjs = s.spawnedObjs ∧
      s'.terminated = s.terminated := by
  intro q
  induction q with
  | nil =>
    intro s s' h
    simp only [purgeAll, Option.some_inj] at h
    subst h
    exact ⟨fun id hid => hid, rfl, rfl, rfl, rfl⟩
  | cons x xs ih =>
    intro s s' h
    simp only [purgeAll] at h
    cases hp : purgeOne s x with
    | none => rw [hp] at h; exact absurd h (by simp)
    | some s1 =>
      rw [hp] at h
      simp only [Option.some_bind] at h
      obtain ⟨c1, n1, e1, sp1, t1⟩ := purgeOne_spec hp
      obtain ⟨c2, n2, e2, sp2, t2⟩ := ih s1 s' h
      exact ⟨fun id hid => c1 id (c2 id hid), n2.trans n1, e2.trans e1,
        sp2.trans sp1, t2.trans t1⟩

/-- Field-level characterisation of the structural-mutation phases. -/
theorem phases_spec {s s2 : BoardState} (h : phases s = some s2) :
    s2.nextId = s.nextId ∧ s2.spawnedObjs = [] ∧ s2.entities = s.entities ∧
    (∀ id, id ∈ allIds s2.instances → id ∈ allIds s.instances ∨ id ∈ s.spawnedObjs) := by
  unfold phases at h
  cases hp : promoteAll s.spawnedObjs s with
  | none => rw [hp] at h; exact absurd h (by simp)
  | some s1 =>
    rw [hp] at h
    simp only [Option.some_bind] at h
    rw [Option.map_eq_some'] at h
    obtain ⟨s2', hpu, heq⟩ := h
    obtain ⟨c1, m1, n1, e1, sp1, d1, t1⟩ := promoteAll_spec _ _ _ hp
    obtain ⟨c2, n2, e2, sp2, t2⟩ := purgeAll_spec _ _ _ hpu
    subst heq
    refine ⟨n2.trans n1, sp2, e2.trans e1, ?_⟩
    intro id hid
    exact c1 id (c2 id hid)

/-- When nothing is queued for purge, the phases land every staged (and
allocated) identifier in the instance registry. -/
theorem phases_mem {s s2 : BoardState} {cid : Nat} (hdel : s.deletedObjs = [])
    (hcid : cid ∈ s.spawnedObjs) (hsome : (lookupE s cid).isSome = true)
    (h : phases s = some s2) : cid ∈ allIds s2.instances := by
  unfold phases at h
  cases hp : promoteAll s.spawnedObjs s with
  | none => rw [hp] at h; exact absurd h (by simp)
  | some s1 =>
    rw [hp] at h
    simp only [Option.some_bind] at h
    rw [Option.map_eq_some'] at h
    obtain ⟨s2', hpu, heq⟩ := h
    have hmem1 : cid ∈ allIds s1.instances := promoteAll_mem _ _ _ hp cid hcid hsome
    have hdel1 : ({ s1 with spawnedObjs := [] } : BoardState).deletedObjs = [] := by
      show s1.deletedObjs = []
      rw [(promoteAll_spec _ _ _ hp).2.2.2.2.2.1]
      exact hdel
    rw [hdel1] at hpu
    simp only [purgeAll, Option.some_inj] at hpu
    subst hpu
    subst heq
    exact hmem1

/-- C3: deferred structural visibility of spawns.  First conjunct:
immediately after a `spawnObject` call under a live root (depth 0), the
clone appears in `getChildObjects` of the root.  Second conjunct: an
entity spawned during tick T (exactly the entities found in
`spawnedObjs` after the tick, since the promote phase empties the queue
first) is not executed by tick T's traversal, and — provided the run
goes on and nothing was queued for deletion — is executed by tick T+1's
traversal. -/
theorem spawn_deferred_visibility :
    (∀ (s : BoardState) (n : String) (rid : Nat) (R : EntityState) (args : List String)
        (s' : BoardState) (cid : Nat),
        IdsOk s → lookupE s rid = some R → R.depth = 0 → 0 < s.instances.length →
        spawnObject s n (some rid) args = some (s', some cid) →
        cid ∈ getChildObjects s' rid) ∧
    (∀ (fuel₁ fuel₂ : Nat) (s₀ s₁ s₂ : BoardState) (tr₁ tr₂ : List Nat) (cid : Nat),
        StateOk s₀ → s₀.terminated = false →
        stepTr fuel₁ s₀ = some (s₁, tr₁) →
        cid ∈ s₁.spawnedObjs →
        cid ∉ tr₁ ∧
        (s₁.terminated = false → s₁.deletedObjs = [] →
          stepTr fuel₂ s₁ = some (s₂, tr₂) → cid ∈ tr₂)) := by
  constructor
  · intro s n rid R args s' cid hIds hR hdep hlen hsp
    have hFresh : lookupE s s.nextId = none := lookupE_none_of_ge hIds (le_refl _)
    simp only [spawnObject] at hsp
    split at hsp
    · simp only [Option.some_inj] at hsp
      have h2 : (none : Option Nat) = some cid := congrArg Prod.snd hsp
      exact absurd h2 (by simp)
    · split at hsp
      · simp only [Option.some_inj] at hsp
        have h2 : (none : Option Nat) = some cid := congrArg Prod.snd hsp
        exact absurd h2 (by simp)
      · rename_i pid hpid tmpl htmpl
        simp only [hR] at hsp
        have hFreshG : lookupE (growFor s R) (growFor s R).nextId = none := by
          rw [growFor_nextId, lookupE_growFor]
          exact hFresh
        rw [spawnCore_eq _ _ _ _ hFreshG] at hsp
        simp only [Option.some_inj, Prod.mk.injEq] at hsp
        obtain ⟨hs', hcid⟩ := hsp
        rw [growFor_nextId] at hcid
        subst hcid
        subst hs'
        obtain ⟨ho, hn, hinst, hspawn, hd, hg, ht, hf, hother, c, hc, hcs⟩ :=
          spawnStaged_spec tmpl (R.depth + 1) (some rid) args hFreshG
        rw [growFor_nextId] at hother hc hspawn
        have hne : rid ≠ s.nextId := by
          intro hc'
          rw [hc', hFresh] at hR
          exact absurd hR (by simp)
        have hRid : lookupE (spawnStaged (growFor s R) tmpl (R.depth + 1) (some rid) args)
            rid = some R := by
          rw [hother rid hne, lookupE_growFor]
          exact hR
        have hlen' : ¬ ((spawnStaged (growFor s R) tmpl (R.depth + 1) (some rid) args).instances.length
            ≤ R.depth + 1) := by
          rw [hinst]
          unfold growFor
          split
          · rename_i hcond
            simp only [List.length_append, List.length_cons, List.length_nil]
            omega
          · rename_i hcond
            omega
        simp only [getChildObjects, hRid]
        rw [if_neg hlen']
        refine List.mem_append_right _ ?_
        rw [hspawn]
        refine List.mem_filter.mpr ⟨List.mem_append_right _ (List.mem_singleton.mpr rfl), ?_⟩
        simp [parentOf, hc, hcs.2.2.2.2.2.2.2.1]
  · intro fuel₁ fuel₂ s₀ s₁ s₂ tr₁ tr₂ cid hOk hterm hstep hcid
    unfold stepTr at hstep
    rw [if_neg (by rw [hterm]; exact Bool.false_ne_true)] at hstep
    cases hp : phases s₀ with
    | none => rw [hp] at hstep; exact absurd hstep (by simp)
    | some sP =>
      rw [hp] at hstep
      simp only [Option.some_bind] at hstep
      rw [Option.map_eq_some'] at hstep
      obtain ⟨⟨s3, tr3⟩, hex, heq⟩ := hstep
      have hs₁ : s₁ = if s3.terminated = true then
          { s3 with finishCount := s3.finishCount + 1 } else s3 :=
        (congrArg Prod.fst heq).symm
      have htr₁ : tr₁ = tr3 := (congrArg Prod.snd heq).symm
      have htr3 : tr3 = schedule sP := execSchedule_trace _ _ _ _ hex
      obtain ⟨hPn, hPsp, hPe, hPmem⟩ := phases_spec hp
      have hbound : ∀ id ∈ allIds sP.instances, id < s₀.nextId := by
        intro id hid
        rcases hPmem id hid with h' | h'
        · exact hOk.2.1 id h'
        · exact hOk.2.2 id h'
      have hmid : Mid sP s3 := mid_execSchedule _ _ _ _ hex
      have hspawn1 : s₁.spawnedObjs = s3.spawnedObjs := by
        rw [hs₁]
        split <;> rfl
      have hcid3 : cid ∈ s3.spawnedObjs := by
        rw [← hspawn1]
        exact hcid
      rcases hmid.2.2.2 cid hcid3 with hin | ⟨hge, hsome3⟩
      · rw [hPsp] at hin
        exact absurd hin (List.not_mem_nil cid)
      · constructor
        · rw [htr₁, htr3]
          intro hmem
          have := hbound cid (mem_schedule_iff.mp hmem)
          rw [hPn] at hge
          omega
        · intro hterm1 hdel1 hstep2
          have hlook : ∀ k, lookupE s₁ k = lookupE s3 k := by
            intro k
            rw [hs₁]
            split <;> rfl
          have hsome₁ : (lookupE s₁ cid).isSome = true := by
            rw [hlook]
            exact hsome3
          unfold stepTr at hstep2
          rw [if_neg (by rw [hterm1]; exact Bool.false_ne_true)] at hstep2
          cases hp2 : phases s₁ with
          | none => rw [hp2] at hstep2; exact absurd hstep2 (by simp)
          | some sQ =>
            rw [hp2] at hstep2
            simp only [Option.some_bind] at hstep2
            rw [Option.map_eq_some'] at hstep2
            obtain ⟨⟨s4, tr4⟩, hex2, heq2⟩ := hstep2
            have htr₂ : tr₂ = tr4 := (congrArg Prod.snd heq2).symm
            have htr4 : tr4 = schedule sQ := execSchedule_trace _ _ _ _ hex2
            rw [htr₂, htr4]
            exact mem_schedule_iff.mpr (phases_mem hdel1 hcid hsome₁ hp2)

/-- Witness for C3 on the deferred-visibility scenario: the direct spawn
of entity 4 under root 2 is immediately visible through
`getChildObjects`; entity 3 — spawned by the root's script during tick
one — is absent from tick one's trace and present in tick two's. -/
theorem spawn_deferred_visibility_witness :
    4 ∈ getChildObjects visSpawn.1 2 ∧ 3 ∉ visT1.2 ∧ 3 ∈ visT2.2 := by
  have h1 := spawn_deferred_visibility.1 visT1.1 "C" 2 visRoot [] visSpawn.1 4
    (by unfold IdsOk; decide) (by decide) (by decide) (by decide) (by decide)
  have h2 := spawn_deferred_visibility.2 9 9 visS1 visT1.1 visT2.1 visT1.2 visT2.2 3
    (by unfold StateOk IdsOk; decide) (by decide) (by decide) (by decide)
  exact ⟨h1, h2.1, h2.2 (by decide) (by decide) (by decide)⟩

/-! Preservation of the locked-entity discipline (`Good`) by every
operation of the public surface. -/

theorem LInv_lookup {s : BoardState} {eid : Nat} {e : EntityState} (hL : LInv s)
    (h : lookupE s eid = some e) (hl : e.locked = true) : e.ended = true :=
  hL (eid, e) (lookupA_some_mem h) hl

theorem mem_updA {α β : Type} [DecidableEq α] {k : α} {f : β → β} :
    ∀ {l : List (α × β)} {q : α × β}, q ∈ updA k f l →
      q ∈ l ∨ ∃ v, lookupA k l = some v ∧ q = (k, f v) := by
  intro l
  induction l with
  | nil => intro q hq; exact absurd hq (List.not_mem_nil q)
  | cons p ps ih =>
    intro q hq
    simp only [updA] at hq
    split at hq
    · rename_i hp
      rcases List.mem_cons.mp hq with rfl | hq'
      · exact Or.inr ⟨p.2, by simp [lookupA, hp], by rw [hp]⟩
      · exact Or.inl (List.mem_cons_of_mem _ hq')
    · rename_i hp
      rcases List.mem_cons.mp hq with rfl | hq'
      · exact Or.inl (List.mem_cons_self _ _)
      · rcases ih hq' with h' | ⟨v, hv, hqv⟩
        · exact Or.inl (List.mem_cons_of_mem _ h')
        · exact Or.inr ⟨v, by simp [lookupA, hp, hv], hqv⟩

theorem good_refl (s : BoardState) : Good s s := fun hL =>
  ⟨hL, fun _ e hlk hl => ⟨e, hlk, hl, LInv_lookup hL hlk hl, rfl⟩⟩

theorem good_trans {s t u : BoardState} (h1 : Good s t) (h2 : Good t u) : Good s u := by
  intro hL
  obtain ⟨hLt, hF1⟩ := h1 hL
  obtain ⟨hLu, hF2⟩ := h2 hLt
  refine ⟨hLu, fun eid e hlk hl => ?_⟩
  obtain ⟨e', hlk', hl', he', hp'⟩ := hF1 eid e hlk hl
  obtain ⟨e'', hlk'', hl'', he'', hp''⟩ := hF2 eid e' hlk' hl'
  exact ⟨e'', hlk'', hl'', he'', hp''.trans hp'⟩

theorem good_skel {s s' : BoardState} (h : s'.entities = s.entities) : Good s s' := by
  intro hL
  constructor
  · intro p hp
    exact hL p (h ▸ hp)
  · intro eid e hlk hl
    refine ⟨e, ?_, hl, LInv_lookup hL hlk hl, rfl⟩
    unfold lookupE
    rw [h]
    exact hlk

theorem good_updE_keep {s : BoardState} {k : Nat} (f : EntityState → EntityState)
    (hA : ∀ e, (f e).locked = e.locked ∧ (f e).ended = e.ended ∧
      (f e).pendingJumpOp = e.pendingJumpOp) : Good s (updE s k f) := by
  intro hL
  constructor
  · intro p hp
    rcases mem_updA hp with hold | ⟨v, hv, hqv⟩
    · exact hL p hold
    · subst hqv
      intro hl
      show (f v).ended = true
      rw [(hA v).2.1]
      refine hL (k, v) (lookupA_some_mem hv) ?_
      show v.locked = true
      rw [← (hA v).1]
      exact hl
  · intro eid e hlk hl
    by_cases hek : eid = k
    · subst hek
      refine ⟨f e, ?_, ?_, ?_, (hA e).2.2⟩
      · rw [lookupE_updE, if_pos rfl, hlk]
        rfl
      · rw [(hA e).1]
        exact hl
      · rw [(hA e).2.1]
        exact LInv_lookup hL hlk hl
    · refine ⟨e, ?_, hl, LInv_lookup hL hlk hl, rfl⟩
      rw [lookupE_updE, if_neg hek]
      exact hlk

theorem good_updE_end {s : BoardState} {k : Nat} (f : EntityState → EntityState)
    (hB : ∀ e, (f e).ended = true ∧ (f e).pendingJumpOp = e.pendingJumpOp ∧
      ((f e).locked = true ∨ (f e).locked = e.locked)) : Good s (updE s k f) := by
  intro hL
  constructor
  · intro p hp
    rcases mem_updA hp with hold | ⟨v, hv, hqv⟩
    · exact hL p hold
    · subst hqv
      intro _
      exact (hB v).1
  · intro eid e hlk hl
    by_cases hek : eid = k
    · subst hek
      refine ⟨f e, ?_, ?_, (hB e).1, (hB e).2.1⟩
      · rw [lookupE_updE, if_pos rfl, hlk]
        rfl
      · rcases (hB e).2.2 with h' | h'
        · exact h'
        · rw [h']
          exact hl
    · refine ⟨e, ?_, hl, LInv_lookup hL hlk hl, rfl⟩
      rw [lookupE_updE, if_neg hek]
      exact hlk

theorem good_updE_notLocked {s : BoardState} {k : Nat} (f : EntityState → EntityState)
    (hnl : LInv s → ∀ e, lookupE s k = some e → e.locked = false)
    (h1 : ∀ e, (f e).locked = e.locked) : Good s (updE s k f) := by
  intro hL
  constructor
  · intro p hp
    rcases mem_updA hp with hold | ⟨v, hv, hqv⟩
    · exact hL p hold
    · subst hqv
      intro hl
      rw [show ((k, f v) : Nat × EntityState).2.locked = (f v).locked from rfl, h1 v,
        hnl hL v hv] at hl
      exact absurd hl (by simp)
  · intro eid e hlk hl
    by_cases hek : eid = k
    · subst hek
      rw [hnl hL e hlk] at hl
      exact absurd hl (by simp)
    · refine ⟨e, ?_, hl, LInv_lookup hL hlk hl, rfl⟩
      rw [lookupE_updE, if_neg hek]
      exact hlk

theorem good_newEntity (s : BoardState) (n : String) (sc : Script) (p : List String) :
    Good s (newEntity s n sc p).1 := by
  intro hL
  constructor
  · intro q hq
    have hq' : q ∈ s.entities ++ [(s.nextId, mkEntity n sc p)] := hq
    rcases List.mem_append.mp hq' with hold | hnew
    · exact hL q hold
    · intro hl
      rw [List.mem_singleton.mp hnew] at hl
      exact absurd hl (by simp [mkEntity])
  · intro eid e hlk hl
    refine ⟨e, ?_, hl, LInv_lookup hL hlk hl, rfl⟩
    show lookupA eid (s.entities ++ _) = some e
    exact lookupA_append_of_some hlk

theorem good_gotoLabel {s : BoardState} {eid : Nat} {l : String} {args : List String}
    {s' : BoardState} (h : gotoLabel s eid l args = some s') : Good s s' := by
  unfold gotoLabel at h
  split at h
  · exact absurd h (by simp)
  · rename_i e hlk
    split at h
    · simp only [Option.some_inj] at h
      subst h
      exact good_refl s
    · rename_i hnl
      split at h
      · exact absurd h (by simp)
      · split at h
        · simp only [Option.some_inj] at h
          subst h
          refine good_updE_notLocked _ (fun _ e' hlk' => ?_) (fun e' => rfl)
          have he : e' = e := by
            rw [hlk] at hlk'
            injection hlk' with h'
            exact h'.symm
          subst he
          simpa using hnl
        · simp only [Option.some_inj] at h
          subst h
          exact good_refl s

theorem good_begin {s : BoardState} {eid : Nat} {args : List String} {s' : BoardState}
    (h : begin s eid args = some s') : Good s s' := by
  rw [begin_def] at h
  exact good_trans
    (good_updE_keep (fun e => { e with cycleEnded := false }) (fun e => ⟨rfl, rfl, rfl⟩))
    (good_gotoLabel h)

theorem good_addObjectToGroup (s : BoardState) (g : String) (eid : Nat) :
    Good s (addObjectToGroup s g eid) := by
  unfold addObjectToGroup
  split
  · exact good_refl s
  · exact good_trans (good_skel rfl)
      (good_updE_keep (fun e => { e with groups := e.groups ++ [g] })
        (fun e => ⟨rfl, rfl, rfl⟩))

theorem good_removeObjectFromGroup (s : BoardState) (g : String) (eid : Nat) :
    Good s (removeObjectFromGroup s g eid) := by
  unfold removeObjectFromGroup
  split
  · exact good_refl s
  · exact good_trans (good_skel rfl)
      (good_updE_keep (fun e => { e with groups := spliceIndexOf e.groups g })
        (fun e => ⟨rfl, rfl, rfl⟩))

theorem good_removeAllGroupsAux (i : Nat) :
    ∀ (s : BoardState) (eid : Nat), Good s (removeAllGroupsAux i s eid) := by
  induction i with
  | zero => intro s eid; exact good_refl s
  | succ i ih =>
    intro s eid
    unfold removeAllGroupsAux
    split
    · exact good_trans (good_removeObjectFromGroup _ _ _) (ih _ _)
    · exact ih _ _

theorem good_removeObjectFromAllGroups (s : BoardState) (eid : Nat) :
    Good s (removeObjectFromAllGroups s eid) :=
  good_removeAllGroupsAux _ s eid

theorem good_removeObjectOne (s : BoardState) (eid : Nat) :
    Good s (removeObjectOne s eid) := by
  have h1 : Good s (updE s eid fun e =>
      { e with locked := true, ended := true, cycleEnded := true, adoptions := [] }) :=
    good_updE_end _ (fun e => ⟨rfl, rfl, Or.inl rfl⟩)
  have h2 : Good s (removeObjectFromAllGroups (updE s eid fun e =>
      { e with locked := true, ended := true, cycleEnded := true, adoptions := [] }) eid) :=
    good_trans h1 (good_removeObjectFromAllGroups _ _)
  exact good_trans h2 (good_skel rfl)

theorem good_foldl {f : BoardState → Nat → BoardState} (hf : ∀ s x, Good s (f s x)) :
    ∀ (l : List Nat) (s : BoardState), Good s (l.foldl f s) := by
  intro l
  induction l with
  | nil => intro s; exact good_refl s
  | cons x xs ih => intro s; exact good_trans (hf s x) (ih (f s x))

theorem good_removeObject (s : BoardState) (eid : Nat) (recursive : Bool) :
    Good s (removeObject s eid recursive) := by
  unfold removeObject
  cases recursive with
  | false =>
    simp only [Bool.false_eq_true, if_false]
    exact good_removeObjectOne s eid
  | true =>
    simp only [if_true]
    exact good_trans (good_foldl good_removeObjectOne _ s) (good_removeObjectOne _ _)

theorem good_terminate (s : BoardState) : Good s (terminate s) := good_skel rfl

theorem good_defineGroup (s : BoardState) (g : String) : Good s (defineGroup s g) := by
  unfold defineGroup
  split
  · exact good_refl s
  · exact good_skel rfl

theorem good_defineObject (s : BoardState) (n : String) (params : List String)
    (sc : Script) : Good s (defineObject s n params sc).1 := by
  unfold defineObject
  split
  · exact good_refl s
  · exact good_trans (good_newEntity s n sc params) (good_skel rfl)

theorem good_spawnCore {s : BoardState} {tmpl : EntityState} {d : Nat} {par : Option Nat}
    {args : List String} {s' : BoardState} {r : Option Nat}
    (h : spawnCore s tmpl d par args = some (s', r)) : Good s s' := by
  unfold spawnCore at h
  rw [Option.map_eq_some'] at h
  obtain ⟨X, hX, hg⟩ := h
  have hs' : s' = { X with spawnedObjs := X.spawnedObjs ++ [s.nextId] } :=
    (congrArg Prod.fst hg).symm
  subst hs'
  have h1 : Good s (spawnSetup s tmpl d par) := by
    unfold spawnSetup
    exact good_trans (good_newEntity s tmpl.name tmpl.script tmpl.initParams)
      (good_updE_keep
        (fun e =>
          { e with depth := d, parent := some (par.getD s.nextId),
                   executor := some (parseS tmpl.script) })
        (fun e => ⟨rfl, rfl, rfl⟩))
  exact good_trans (good_trans h1 (good_begin hX)) (good_skel rfl)

theorem good_growFor (s : BoardState) (pe : EntityState) : Good s (growFor s pe) := by
  unfold growFor
  split
  · exact good_skel rfl
  · exact good_refl s

theorem good_spawnObject {s : BoardState} {n : String} {par : Option Nat}
    {args : List String} {s' : BoardState} {r : Option Nat}
    (h : spawnObject s n par args = some (s', r)) : Good s s' := by
  unfold spawnObject at h
  split at h
  · simp only [Option.some_inj] at h
    have hs : s = s' := congrArg Prod.fst h
    rw [← hs]
    exact good_refl s
  · split at h
    · simp only [Option.some_inj] at h
      have hs : s = s' := congrArg Prod.fst h
      rw [← hs]
      exact good_refl s
    · split at h
      · exact good_spawnCore h
      · split at h
        · exact absurd h (by simp)
        · exact good_trans (good_growFor _ _) (good_spawnCore h)

theorem good_replaceObject {s : BoardState} {t : Nat} {n : String} {args : List String}
    {s' : BoardState} (h : replaceObject s t n args = some s') : Good s s' := by
  unfold replaceObject at h
  split at h
  · exact absurd h (by simp)
  · split at h
    · exact absurd h (by simp)
    · split at h
      · exact absurd h (by simp)
      · rw [Option.map_eq_some'] at h
        obtain ⟨⟨s1, newId⟩, hsp, heq⟩ := h
        have hs' : s' = removeObjectOne ((getChildObjects s1 t).foldl
            (fun acc cid => updE acc cid fun c => { c with parent := newId }) s1) t :=
          heq.symm
        subst hs'
        exact good_trans (good_spawnObject hsp)
          (good_trans
            (good_foldl (fun s x => good_updE_keep
              (fun c => { c with parent := newId }) (fun e => ⟨rfl, rfl, rfl⟩)) _ s1)
            (good_removeObjectOne _ _))

theorem good_applyInstr {s : BoardState} {selfId : Nat} {i : Instr} {s' : BoardState}
    (h : applyInstr s selfId i = some s') : Good s s' := by
  cases i with
  | nop =>
    simp only [applyInstr, Option.some_inj] at h
    subst h
    exact good_refl s
  | endCycle =>
    simp only [applyInstr, Option.some_inj] at h
    subst h
    exact good_updE_keep (fun e => { e with cycleEnded := true }) (fun e => ⟨rfl, rfl, rfl⟩)
  | gotoI target l args => exact good_gotoLabel h
  | spawnI n par args =>
    simp only [applyInstr] at h
    rw [Option.map_eq_some'] at h
    obtain ⟨⟨s1, r⟩, hsp, heq⟩ := h
    rw [← heq]
    exact good_spawnObject hsp
  | removeI target r =>
    simp only [applyInstr, Option.some_inj] at h
    subst h
    exact good_removeObject _ _ _
  | replaceI target n args => exact good_replaceObject h
  | terminateI =>
    simp only [applyInstr, Option.some_inj] at h
    subst h
    exact good_terminate s
  | addToGroupI g target =>
    simp only [applyInstr, Option.some_inj] at h
    subst h
    exact good_addObjectToGroup _ _ _
  | removeFromGroupI g target =>
    simp only [applyInstr, Option.some_inj] at h
    subst h
    exact good_removeObjectFromGroup _ _ _

theorem good_applyPendingJump {s : BoardState} {eid : Nat} (j : JumpOp)
    (hnl : LInv s → ∀ e, lookupE s eid = some e → e.locked = false) :
    Good s (applyPendingJump s eid j) := by
  refine good_updE_notLocked _ hnl (fun e => ?_)
  cases e.executor <;> rfl

theorem good_execAdvance {s : BoardState} {eid : Nat} {b : Bool} {t : BoardState}
    (h : execAdvance s eid = some (b, t)) : Good s t := by
  unfold execAdvance at h
  split at h
  · exact absurd h (by simp)
  · rename_i e hlk
    split at h
    · exact absurd h (by simp)
    · rename_i ex hx
      split at h
      · simp only [Option.some_inj, Prod.mk.injEq] at h
        rw [← h.2]
        exact good_updE_end _ (fun e => ⟨rfl, rfl, Or.inr rfl⟩)
      · rename_i i rest hc
        rw [Option.map_eq_some'] at h
        obtain ⟨s2, ha, heq⟩ := h
        have hs : s2 = t := congrArg Prod.snd heq
        rw [← hs]
        exact good_trans
          (good_updE_keep
            (fun e => { e with executor := some { ex with current := rest } })
            (fun e => ⟨rfl, rfl, rfl⟩))
          (good_applyInstr ha)

theorem good_execLoopR {fuel : Nat} :
    ∀ {s : BoardState} {eid : Nat} {s' : BoardState} {b : Bool},
      execLoopR fuel s eid = some (s', b) → Good s s' := by
  induction fuel with
  | zero => intro s eid s' b h; exact absurd h (by simp [execLoopR])
  | succ n ih =>
    intro s eid s' b h
    rw [execLoopR] at h
    cases hadv : execAdvance s eid with
    | none => rw [hadv] at h; exact absurd h (by simp)
    | some r =>
      rw [hadv] at h
      simp only [Option.some_bind] at h
      obtain ⟨rb, t⟩ := r
      have hst : Good s t := good_execAdvance hadv
      cases rb with
      | false =>
        simp only [Bool.false_eq_true, if_false, Option.some_inj, Prod.mk.injEq] at h
        rw [← h.1]
        exact hst
      | true =>
        rw [if_pos rfl] at h
        split at h
        · exact absurd h (by simp)
        · rename_i e heq
          split at h
          · simp only [Option.some_inj, Prod.mk.injEq] at h
            rw [← h.1]
            exact hst
          · rename_i hce
            split at h
            · rename_i j hp
              refine good_trans hst (good_trans (good_applyPendingJump j ?_) (ih h))
              intro hLt e' hlk'
              have he : e' = e := by
                rw [heq] at hlk'
                injection hlk' with h'
                exact h'.symm
              subst he
              have hend : e'.ended = false := by
                cases hen : e'.ended
                · rfl
                · exfalso
                  apply hce
                  rw [hen, Bool.or_true]
              by_contra hlo
              rw [Bool.not_eq_false] at hlo
              rw [LInv_lookup hLt hlk' hlo] at hend
              exact absurd hend (by simp)
            · exact good_trans hst (ih h)

theorem good_executeR {fuel : Nat} {s : BoardState} {eid : Nat} {s' : BoardState}
    {b : Bool} (h : executeR fuel s eid = some (s', b)) : Good s s' := by
  unfold executeR at h
  split at h
  · exact absurd h (by simp)
  · rename_i e hlk
    split at h
    · simp only [Option.some_inj, Prod.mk.injEq] at h
      rw [← h.1]
      exact good_updE_keep _ (fun e => ⟨rfl, rfl, rfl⟩)
    · rename_i hend
      split at h
      · rename_i j hp
        refine good_trans
          (good_updE_keep (fun e => { e with cycleEnded := false })
            (fun e => ⟨rfl, rfl, rfl⟩))
          (good_trans (good_applyPendingJump j ?_) (good_execLoopR h))
        intro hL1 e' hlk'
        have he : e' = { e with cycleEnded := false } := by
          rw [lookupE_updE, if_pos rfl, hlk] at hlk'
          injection hlk' with h'
          exact h'.symm
        subst he
        by_contra hlo
        rw [Bool.not_eq_false] at hlo
        have hlo' : ({ e with cycleEnded := false } : EntityState).locked = true := hlo
        have hthis := LInv_lookup hL1 hlk' hlo'
        exact hend hthis
      · exact good_trans
          (good_updE_keep (fun e => { e with cycleEnded := false })
            (fun e => ⟨rfl, rfl, rfl⟩))
          (good_execLoopR h)

theorem good_execute {fuel : Nat} {s : BoardState} {eid : Nat} {s' : BoardState}
    (h : execute fuel s eid = some s') : Good s s' := by
  unfold execute at h
  rw [Option.map_eq_some'] at h
  obtain ⟨⟨s1, b⟩, hex, heq⟩ := h
  rw [← heq]
  exact good_executeR hex

theorem good_execSchedule {fuel : Nat} :
    ∀ (l : List Nat) (s s' : BoardState) (tr : List Nat),
      execSchedule fuel l s = some (s', tr) → Good s s' := by
  intro l
  induction l with
  | nil =>
    intro s s' tr h
    simp only [execSchedule, Option.some_inj, Prod.mk.injEq] at h
    rw [← h.1]
    exact good_refl s
  | cons x xs ih =>
    intro s s' tr h
    simp only [execSchedule] at h
    cases hex : execute fuel s x with
    | none => rw [hex] at h; exact absurd h (by simp)
    | some s1 =>
      rw [hex] at h
      simp only [Option.some_bind] at h
      rw [Option.map_eq_some'] at h
      obtain ⟨⟨s2, tr2⟩, hrest, heq⟩ := h
      have hs : s2 = s' := congrArg Prod.fst heq
      rw [← hs]
      exact good_trans (good_execute hex) (ih _ _ _ hrest)

theorem good_promoteOne {s : BoardState} {eid : Nat} {s' : BoardState}
    (h : promoteOne s eid = some s') : Good s s' := by
  unfold promoteOne at h
  split at h
  · simp only [Option.some_inj] at h
    subst h
    exact good_refl s
  · split at h
    · exact absurd h (by simp)
    · simp only [Option.some_inj] at h
      subst h
      exact good_skel rfl

theorem good_promoteAll :
    ∀ (q : List Nat) (s s' : BoardState), promoteAll q s = some s' → Good s s' := by
  intro q
  induction q with
  | nil =>
    intro s s' h
    simp only [promoteAll, Option.some_inj] at h
    subst h
    exact good_refl s
  | cons x xs ih =>
    intro s s' h
    simp only [promoteAll] at h
    cases hp : promoteOne s x with
    | none => rw [hp] at h; exact absurd h (by simp)
    | some s1 =>
      rw [hp] at h
      simp only [Option.some_bind] at h
      exact good_trans (good_promoteOne hp) (ih _ _ h)

theorem good_purgeOne {s : BoardState} {eid : Nat} {s' : BoardState}
    (h : purgeOne s eid = some s') : Good s s' := by
  unfold purgeOne at h
  split at h
  · simp only [Option.some_inj] at h
    subst h
    exact good_refl s
  · split at h
    · exact absurd h (by simp)
    · split at h
      · exact absurd h (by simp)
      · simp only [Option.some_inj] at h
        subst h
        exact good_skel rfl

theorem good_purgeAll :
    ∀ (q : List Nat) (s s' : BoardState), purgeAll q s = some s' → Good s s' := by
  intro q
  induction q with
  | nil =>
    intro s s' h
    simp only [purgeAll, Option.some_inj] at h
    subst h
    exact good_refl s
  | cons x xs ih =>
    intro s s' h
    simp only [purgeAll] at h
    cases hp : purgeOne s x with
    | none => rw [hp] at h; exact absurd h (by simp)
    | some s1 =>
      rw [hp] at h
      simp only [Option.some_bind] at h
      exact good_trans (good_purgeOne hp) (ih _ _ h)

theorem good_phases {s s' : BoardState} (h : phases s = some s') : Good s s' := by
  unfold phases at h
  cases hp : promoteAll s.spawnedObjs s with
  | none => rw [hp] at h; exact absurd h (by simp)
  | some s1 =>
    rw [hp] at h
    simp only [Option.some_bind] at h
    rw [Option.map_eq_some'] at h
    obtain ⟨s2, hpu, heq⟩ := h
    rw [← heq]
    have h1 : Good s1 ({ s1 with spawnedObjs := [] } : BoardState) := good_skel rfl
    have h2 : Good ({ s1 with spawnedObjs := [] } : BoardState) s2 :=
      good_purgeAll _ _ _ hpu
    have h3 : Good s2 ({ s2 with deletedObjs := [] } : BoardState) := good_skel rfl
    exact good_trans (good_promoteAll _ _ _ hp) (good_trans h1 (good_trans h2 h3))

theorem good_stepTr {fuel : Nat} {s s' : BoardState} {tr : List Nat}
    (h : stepTr fuel s = some (s', tr)) : Good s s' := by
  unfold stepTr at h
  split at h
  · simp only [Option.some_inj, Prod.mk.injEq] at h
    rw [← h.1]
    exact good_refl s
  · cases hp : phases s with
    | none => rw [hp] at h; exact absurd h (by simp)
    | some s2 =>
      rw [hp] at h
      simp only [Option.some_bind] at h
      rw [Option.map_eq_some'] at h
      obtain ⟨⟨s3, tr3⟩, hex, heq⟩ := h
      have hs : (if s3.terminated = true then
          { s3 with finishCount := s3.finishCount + 1 } else s3) = s' :=
        congrArg Prod.fst heq
      rw [← hs]
      refine good_trans (good_phases hp) (good_trans (good_execSchedule _ _ _ _ hex) ?_)
      split
      · exact good_skel rfl
      · exact good_refl s3

theorem good_step {fuel : Nat} {s s' : BoardState} (h : step fuel s = some s') :
    Good s s' := by
  unfold step at h
  rw [Option.map_eq_some'] at h
  obtain ⟨⟨s1, tr⟩, hst, heq⟩ := h
  rw [← heq]
  exact good_stepTr hst

/-- C6: `locked ⇒ ended` is an invariant preserved by every public
operation, and across every public operation a locked entity stays
allocated, locked and ended, with its pending jump slot untouched (in
particular no operation clears `ended` or stages a new jump for it). -/
theorem locked_invariant :
    ∀ (op : BOp) (s s' : BoardState), applyBOp op s = some s' → LInv s →
      LInv s' ∧ Frozen s s' := by
  intro op s s' h hL
  have hg : Good s s' := by
    cases op with
    | beginOp eid args => exact good_begin h
    | gotoOp eid l args => exact good_gotoLabel h
    | execOp fuel eid => exact good_execute h
    | stepOp fuel => exact good_step h
    | defineOp n params sc =>
      simp only [applyBOp, Option.some_inj] at h
      rw [← h]
      exact good_defineObject s n params sc
    | defGroupOp g =>
      simp only [applyBOp, Option.some_inj] at h
      rw [← h]
      exact good_defineGroup s g
    | spawnOp n par args =>
      simp only [applyBOp] at h
      rw [Option.map_eq_some'] at h
      obtain ⟨⟨s1, r⟩, hsp, heq⟩ := h
      rw [← heq]
      exact good_spawnObject hsp
    | removeOp eid r =>
      simp only [applyBOp, Option.some_inj] at h
      rw [← h]
      exact good_removeObject s eid r
    | replaceOp eid n args => exact good_replaceObject h
    | addGrpOp g eid =>
      simp only [applyBOp, Option.some_inj] at h
      rw [← h]
      exact good_addObjectToGroup s g eid
    | remGrpOp g eid =>
      simp only [applyBOp, Option.some_inj] at h
      rw [← h]
      exact good_removeObjectFromGroup s g eid
    | remAllGrpOp eid =>
      simp only [applyBOp, Option.some_inj] at h
      rw [← h]
      exact good_removeObjectFromAllGroups s eid
    | termOp =>
      simp only [applyBOp, Option.some_inj] at h
      rw [← h]
      exact good_terminate s
  exact hg hL

/-- Witness for C6: a jump request aimed at the locked entity of
`wBoardL` is ignored and the locked-entity discipline holds. -/
theorem locked_invariant_witness :
    LInv wBoardL ∧ Frozen wBoardL wBoardL := by
  exact locked_invariant (BOp.gotoOp 0 "init" []) wBoardL wBoardL (by decide)
    (by unfold LInv; decide)

/-! Support for the amended two-sided group-membership invariant:
`asetA` lookups, exact `removeFirst` behaviour on duplicate-free lists,
and a membership-based introduction rule for `GInv`. -/

theorem lookupA_asetA {α β : Type} [DecidableEq α] (k k' : α) (v : β) :
    ∀ l : List (α × β),
      lookupA k' (asetA k v l) = if k' = k then some v else lookupA k' l := by
  intro l
  induction l with
  | nil =>
    by_cases h : k' = k
    · simp [asetA, lookupA, h]
    · have h' : ¬ (k = k') := fun hc => h hc.symm
      simp [asetA, lookupA, h, h']
  | cons p ps ih =>
    by_cases h1 : p.1 = k
    · by_cases h2 : k' = k
      · simp [asetA, lookupA, h1, h2]
      · have h3 : ¬ (k = k') := fun hc => h2 hc.symm
        simp [asetA, lookupA, h1, h2, h3]
    · by_cases h2 : p.1 = k'
      · have h3 : ¬ (k' = k) := fun hc => h1 (h2.trans hc)
        simp [asetA, lookupA, h1, h2, h3]
      · simp [asetA, lookupA, h1, h2, ih]

theorem removeFirst_of_mem {α : Type} [DecidableEq α] :
    ∀ {l : List α} {x : α}, x ∈ l → ∃ l', removeFirst l x = some l' := by
  intro l
  induction l with
  | nil => intro x h; exact absurd h (List.not_mem_nil x)
  | cons a as ih =>
    intro x h
    by_cases hax : a = x
    · exact ⟨as, by simp [removeFirst, hax]⟩
    · have hx : x ∈ as := by
        rcases List.mem_cons.mp h with rfl | h'
        · exact absurd rfl hax
        · exact h'
      obtain ⟨l'', h''⟩ := ih hx
      exact ⟨a :: l'', by simp [removeFirst, hax, h'']⟩

theorem removeFirst_nodup_spec {α : Type} [DecidableEq α] :
    ∀ {l l' : List α} {x : α}, l.Nodup → removeFirst l x = some l' →
      x ∉ l' ∧ l'.Nodup ∧ ∀ y, y ≠ x → (y ∈ l' ↔ y ∈ l) := by
  intro l
  induction l with
  | nil => intro l' x _ h; simp [removeFirst] at h
  | cons a as ih =>
    intro l' x hnd h
    have hand : as.Nodup := hnd.of_cons
    have hna : a ∉ as := (List.nodup_cons.mp hnd).1
    simp only [removeFirst] at h
    split at h
    · rename_i hax
      injection h with h
      subst h
      subst hax
      refine ⟨hna, hand, ?_⟩
      intro y hy
      constructor
      · exact fun hm => List.mem_cons_of_mem _ hm
      · intro hm
        rcases List.mem_cons.mp hm with rfl | hm'
        · exact absurd rfl hy
        · exact hm'
    · rename_i hax
      rw [Option.map_eq_some'] at h
      obtain ⟨l'', h1, h2⟩ := h
      subst h2
      obtain ⟨hx1, hx2, hx3⟩ := ih hand h1
      refine ⟨?_, ?_, ?_⟩
      · intro hc
        rcases List.mem_cons.mp hc with rfl | hc'
        · exact hax rfl
        · exact hx1 hc'
      · exact List.nodup_cons.mpr ⟨fun hc => hna (removeFirst_subset h1 a hc), hx2⟩
      · intro y hy
        rw [List.mem_cons, List.mem_cons, hx3 y hy]

theorem nodup_append_singleton {α : Type} {l : List α} {x : α}
    (h : l.Nodup) (hx : x ∉ l) : (l ++ [x]).Nodup := by
  rw [List.nodup_append]
  refine ⟨h, List.nodup_singleton x, ?_⟩
  intro a ha hb
  rw [List.mem_singleton] at hb
  subst hb
  exact hx ha

theorem GInv_of_mem {s : BoardState}
    (h1 : ∀ p ∈ s.entities, p.2.groups.Nodup ∧
      ∀ g ∈ p.2.groups, (lookupA g s.groupStore).isSome = true)
    (h2 : ∀ q ∈ s.groupStore, q.2.Nodup)
    (h3 : ∀ p ∈ s.entities, ∀ q ∈ s.groupStore, (q.1 ∈ p.2.groups ↔ p.1 ∈ q.2)) :
    GInv s := by
  refine ⟨?_, ?_, ?_⟩
  · intro eid e he
    exact h1 (eid, e) (lookupA_some_mem he)
  · intro g m hm
    exact h2 (g, m) (lookupA_some_mem hm)
  · intro eid e g m he hm
    exact h3 (eid, e) (lookupA_some_mem he) (g, m) (lookupA_some_mem hm)

theorem ginv_defineGroup {s : BoardState} (g : String) (hG : GInv s) :
    GInv (defineGroup s g) := by
  obtain ⟨hG1, hG2, hG3⟩ := hG
  cases hm : lookupA g s.groupStore with
  | some m =>
    have hid : defineGroup s g = s := by
      unfold defineGroup
      simp only [hm]
    rw [hid]
    exact ⟨hG1, hG2, hG3⟩
  | none =>
    have hdg : defineGroup s g = { s with groupStore := s.groupStore ++ [(g, [])] } := by
      unfold defineGroup
      simp only [hm]
    have hstore : ∀ g', lookupA g' (defineGroup s g).groupStore =
        lookupA g' (s.groupStore ++ [(g, [])]) := by
      intro g'
      rw [hdg]
    have hlook : ∀ k, lookupE (defineGroup s g) k = lookupE s k := by
      intro k
      rw [hdg]
      rfl
    refine ⟨?_, ?_, ?_⟩
    · intro eid e he
      rw [hlook] at he
      obtain ⟨he1, he2⟩ := hG1 eid e he
      refine ⟨he1, ?_⟩
      intro g' hg'
      rw [hstore]
      have hs := he2 g' hg'
      cases hl : lookupA g' s.groupStore with
      | none => rw [hl] at hs; simp at hs
      | some m' => rw [lookupA_append_of_some hl]; rfl
    · intro g' m' hm'
      rw [hstore] at hm'
      by_cases hgg : g' = g
      · rw [hgg] at hm'
        rw [lookupA_append_of_none hm] at hm'
        simp [lookupA] at hm'
        subst hm'
        exact List.nodup_nil
      · rw [lookupA_append_ne _ hgg] at hm'
        exact hG2 g' m' hm'
    · intro eid e g' m' he hm'
      rw [hlook] at he
      rw [hstore] at hm'
      by_cases hgg : g' = g
      · rw [hgg] at hm' ⊢
        rw [lookupA_append_of_none hm] at hm'
        simp [lookupA] at hm'
        subst hm'
        constructor
        · intro hmem
          have hs := (hG1 eid e he).2 g hmem
          rw [hm] at hs
          simp at hs
        · intro hmem
          exact absurd hmem (List.not_mem_nil eid)
      · rw [lookupA_append_ne _ hgg] at hm'
        exact hG3 eid e g' m' he hm'

theorem addObjectToGroup_spec {s : BoardState} {g : String} {eid : Nat} {e : EntityState}
    {m : List Nat} (hG : GInv s) (he : lookupE s eid = some e)
    (hm : lookupA g s.groupStore = some m) (hnot : g ∉ e.groups) :
    GInv (addObjectToGroup s g eid) ∧
    lookupE (addObjectToGroup s g eid) eid = some { e with groups := e.groups ++ [g] } ∧
    lookupA g (addObjectToGroup s g eid).groupStore = some (m ++ [eid]) := by
  obtain ⟨hG1, hG2, hG3⟩ := hG
  have heidm : eid ∉ m := fun hc => hnot ((hG3 eid e g m he hm).mpr hc)
  have hadd : addObjectToGroup s g eid =
      updE { s with groupStore := asetA g (m ++ [eid]) s.groupStore } eid
        (fun e'' => { e'' with groups := e''.groups ++ [g] }) := by
    unfold addObjectToGroup
    simp only [hm, if_neg heidm]
  have hstore : ∀ g', lookupA g' (addObjectToGroup s g eid).groupStore =
      if g' = g then some (m ++ [eid]) else lookupA g' s.groupStore := by
    intro g'
    rw [hadd]
    exact lookupA_asetA g g' (m ++ [eid]) s.groupStore
  have hlook : ∀ k, lookupE (addObjectToGroup s g eid) k =
      if k = eid then
        (lookupE s k).map (fun e'' => { e'' with groups := e''.groups ++ [g] })
      else lookupE s k := by
    intro k
    rw [hadd]
    exact lookupE_updE { s with groupStore := asetA g (m ++ [eid]) s.groupStore } eid _ k
  have hE : lookupE (addObjectToGroup s g eid) eid =
      some { e with groups := e.groups ++ [g] } := by
    rw [hlook, if_pos rfl, he]
    rfl
  have hS : lookupA g (addObjectToGroup s g eid).groupStore = some (m ++ [eid]) := by
    rw [hstore, if_pos rfl]
  refine ⟨⟨?_, ?_, ?_⟩, hE, hS⟩
  · intro eid'' e'' he''
    rw [hlook] at he''
    by_cases hk : eid'' = eid
    · rw [hk, if_pos rfl, he] at he''
      simp only [Option.map_some'] at he''
      injection he'' with he''
      have hgr : e''.groups = e.groups ++ [g] := by
        rw [← he'']
      refine ⟨?_, ?_⟩
      · rw [hgr]
        exact nodup_append_singleton (hG1 eid e he).1 hnot
      · intro g' hg'
        rw [hgr] at hg'
        rw [hstore]
        by_cases hgg : g' = g
        · rw [if_pos hgg]; rfl
        · rw [if_neg hgg]
          have hg'' : g' ∈ e.groups := by
            rcases List.mem_append.mp hg' with hmm | hmm
            · exact hmm
            · exact absurd (List.mem_singleton.mp hmm) hgg
          exact (hG1 eid e he).2 g' hg''
    · rw [if_neg hk] at he''
      obtain ⟨hn1, hn2⟩ := hG1 eid'' e'' he''
      refine ⟨hn1, ?_⟩
      intro g' hg'
      rw [hstore]
      by_cases hgg : g' = g
      · rw [if_pos hgg]; rfl
      · rw [if_neg hgg]
        exact hn2 g' hg'
  · intro g' m' hm'
    rw [hstore] at hm'
    by_cases hgg : g' = g
    · rw [if_pos hgg] at hm'
      injection hm' with hm'
      rw [← hm']
      exact nodup_append_singleton (hG2 g m hm) heidm
    · rw [if_neg hgg] at hm'
      exact hG2 g' m' hm'
  · intro eid'' e'' g' m' he'' hm'
    rw [hlook] at he''
    rw [hstore] at hm'
    by_cases hk : eid'' = eid
    · rw [hk, if_pos rfl, he] at he''
      simp only [Option.map_some'] at he''
      injection he'' with he''
      have hgr : e''.groups = e.groups ++ [g] := by
        rw [← he'']
      by_cases hgg : g' = g
      · rw [if_pos hgg] at hm'
        injection hm' with hm'
        rw [hgr, ← hm', hgg, hk]
        constructor
        · intro hc
          exact List.mem_append_right m (List.mem_singleton_self eid)
        · intro hc
          exact List.mem_append_right e.groups (List.mem_singleton_self g)
      · rw [if_neg hgg] at hm'
        rw [hgr, hk]
        have hiff : g' ∈ e.groups ++ [g] ↔ g' ∈ e.groups := by
          constructor
          · intro hc
            rcases List.mem_append.mp hc with hmm | hmm
            · exact hmm
            · exact absurd (List.mem_singleton.mp hmm) hgg
          · intro hc
            exact List.mem_append_left _ hc
        rw [hiff]
        exact hG3 eid e g' m' he hm'
    · rw [if_neg hk] at he''
      by_cases hgg : g' = g
      · rw [if_pos hgg] at hm'
        injection hm' with hm'
        rw [← hm', hgg]
        have hiff : eid'' ∈ m ++ [eid] ↔ eid'' ∈ m := by
          constructor
          · intro hc
            rcases List.mem_append.mp hc with hmm | hmm
            · exact hmm
            · exact absurd (List.mem_singleton.mp hmm) hk
          · intro hc
            exact List.mem_append_left _ hc
        rw [hiff]
        exact hG3 eid'' e'' g m he'' hm
      · rw [if_neg hgg] at hm'
        exact hG3 eid'' e'' g' m' he'' hm'

theorem addObjectToGroup_undef {s : BoardState} {g : String} (eid : Nat)
    (h : lookupA g s.groupStore = none) : addObjectToGroup s g eid = s := by
  unfold addObjectToGroup
  simp only [h]

theorem ginv_addObjectToGroup {s : BoardState} {g : String} {eid : Nat} {e : EntityState}
    (hG : GInv s) (he : lookupE s eid = some e) (hnot : g ∉ e.groups) :
    GInv (addObjectToGroup s g eid) := by
  cases hm : lookupA g s.groupStore with
  | none =>
    rw [addObjectToGroup_undef eid hm]
    exact hG
  | some m => exact (addObjectToGroup_spec hG he hm hnot).1

theorem removeObjectFromGroup_spec {s : BoardState} {g : String} {eid : Nat}
    {e : EntityState} (hG : GInv s) (he : lookupE s eid = some e) (hmem : g ∈ e.groups) :
    GInv (removeObjectFromGroup s g eid) ∧
    ∃ e' m', lookupE (removeObjectFromGroup s g eid) eid = some e' ∧
      lookupA g (removeObjectFromGroup s g eid).groupStore = some m' ∧
      g ∉ e'.groups ∧ eid ∉ m' := by
  obtain ⟨hG1, hG2, hG3⟩ := hG
  obtain ⟨hnd, hdef⟩ := hG1 eid e he
  have hsome := hdef g hmem
  cases hm : lookupA g s.groupStore with
  | none =>
    rw [hm] at hsome
    simp at hsome
  | some m =>
  have heim : eid ∈ m := (hG3 eid e g m he hm).mp hmem
  have hmnd : m.Nodup := hG2 g m hm
  obtain ⟨m₂, hrm⟩ := removeFirst_of_mem heim
  obtain ⟨hm2a, hm2b, hm2c⟩ := removeFirst_nodup_spec hmnd hrm
  obtain ⟨g₂, hrg⟩ := removeFirst_of_mem hmem
  obtain ⟨hg2a, hg2b, hg2c⟩ := removeFirst_nodup_spec hnd hrg
  have hsplice : spliceIndexOf e.groups g = g₂ := by
    unfold spliceIndexOf
    rw [hrg]
    rfl
  have hrew : removeObjectFromGroup s g eid =
      updE { s with groupStore := asetA g m₂ s.groupStore } eid
        (fun e'' => { e'' with groups := spliceIndexOf e''.groups g }) := by
    unfold removeObjectFromGroup
    simp only [hm, hrm, Option.getD_some]
  have hstore : ∀ g', lookupA g' (removeObjectFromGroup s g eid).groupStore =
      if g' = g then some m₂ else lookupA g' s.groupStore := by
    intro g'
    rw [hrew]
    exact lookupA_asetA g g' m₂ s.groupStore
  have hlook : ∀ k, lookupE (removeObjectFromGroup s g eid) k =
      if k = eid then
        (lookupE s k).map (fun e'' => { e'' with groups := spliceIndexOf e''.groups g })
      else lookupE s k := by
    intro k
    rw [hrew]
    exact lookupE_updE { s with groupStore := asetA g m₂ s.groupStore } eid _ k
  have hE : lookupE (removeObjectFromGroup s g eid) eid =
      some { e with groups := g₂ } := by
    rw [hlook, if_pos rfl, he]
    simp only [Option.map_some']
    rw [hsplice]
  have hS : lookupA g (removeObjectFromGroup s g eid).groupStore = some m₂ := by
    rw [hstore, if_pos rfl]
  refine ⟨⟨?_, ?_, ?_⟩, { e with groups := g₂ }, m₂, hE, hS, hg2a, hm2a⟩
  · intro eid'' e'' he''
    rw [hlook] at he''
    by_cases hk : eid'' = eid
    · rw [hk, if_pos rfl, he] at he''
      simp only [Option.map_some'] at he''
      injection he'' with he''
      have hgr : e''.groups = g₂ := by
        rw [← he'']
        rw [hsplice]
      rw [hgr]
      refine ⟨hg2b, ?_⟩
      intro g' hg'
      rw [hstore]
      by_cases hgg : g' = g
      · rw [if_pos hgg]; rfl
      · rw [if_neg hgg]
        exact hdef g' ((hg2c g' hgg).mp hg')
    · rw [if_neg hk] at he''
      obtain ⟨hn1, hn2⟩ := hG1 eid'' e'' he''
      refine ⟨hn1, ?_⟩
      intro g' hg'
      rw [hstore]
      by_cases hgg : g' = g
      · rw [if_pos hgg]; rfl
      · rw [if_neg hgg]
        exact hn2 g' hg'
  · intro g' m' hm'
    rw [hstore] at hm'
    by_cases hgg : g' = g
    · rw [if_pos hgg] at hm'
      injection hm' with hm'
      rw [← hm']
      exact hm2b
    · rw [if_neg hgg] at hm'
      exact hG2 g' m' hm'
  · intro eid'' e'' g' m' he'' hm'
    rw [hlook] at he''
    rw [hstore] at hm'
    by_cases hk : eid'' = eid
    · rw [hk, if_pos rfl, he] at he''
      simp only [Option.map_some'] at he''
      injection he'' with he''
      have hgr : e''.groups = g₂ := by
        rw [← he'']
        rw [hsplice]
      by_cases hgg : g' = g
      · rw [if_pos hgg] at hm'
        injection hm' with hm'
        rw [hgr, ← hm', hgg, hk]
        constructor
        · intro hc
          exact absurd hc hg2a
        · intro hc
          exact absurd hc hm2a
      · rw [if_neg hgg] at hm'
        rw [hgr, hk, hg2c g' hgg]
        exact hG3 eid e g' m' he hm'
    · rw [if_neg hk] at he''
      by_cases hgg : g' = g
      · rw [if_pos hgg] at hm'
        injection hm' with hm'
        rw [← hm', hgg, hm2c eid'' hk]
        exact hG3 eid'' e'' g m he'' hm
      · rw [if_neg hgg] at hm'
        exact hG3 eid'' e'' g' m' he'' hm'

theorem ginv_removeObjectFromGroup {s : BoardState} {g : String} {eid : Nat}
    {e : EntityState} (hG : GInv s) (he : lookupE s eid = some e)
    (hguard : lookupA g s.groupStore = none ∨ g ∈ e.groups) :
    GInv (removeObjectFromGroup s g eid) := by
  rcases hguard with hnone | hmem
  · have hid : removeObjectFromGroup s g eid = s := by
      unfold removeObjectFromGroup
      simp only [hnone]
    rw [hid]
    exact hG
  · exact (removeObjectFromGroup_spec hG he hmem).1

theorem ginv_removeAllGroupsAux :
    ∀ (i : Nat) (s : BoardState) (eid : Nat), GInv s → GInv (removeAllGroupsAux i s eid) := by
  intro i
  induction i with
  | zero => intro s eid hG; exact hG
  | succ i ih =>
    intro s eid hG
    unfold removeAllGroupsAux
    cases hb : (lookupE s eid).bind (fun e => e.groups.get? i) with
    | none =>
      simp only [hb]
      exact ih s eid hG
    | some g =>
      simp only [hb]
      rw [Option.bind_eq_some] at hb
      obtain ⟨e, he, hge⟩ := hb
      have hmem : g ∈ e.groups := List.get?_mem hge
      exact ih _ eid (ginv_removeObjectFromGroup hG he (Or.inr hmem))

theorem ginv_removeObjectFromAllGroups (s : BoardState) (eid : Nat) (hG : GInv s) :
    GInv (removeObjectFromAllGroups s eid) :=
  ginv_removeAllGroupsAux _ s eid hG

/-- Counterexample to C7 as stated: with groups `g1` and `g2` defined,
entity 1 a member of `g1` only, the call `removeObjectFromGroup("g2", 1)`
splices at index `-1` and deletes `"g1"` from the entity's `groups` list
while `g1`'s member set still contains the entity — the two-sided
membership invariant breaks. -/
theorem group_symmetry_counterexample :
    ((lookupE grpD 1).map fun e => decide ("g1" ∈ e.groups)) = some false ∧
    ((lookupA "g1" grpD.groupStore).map fun m => decide ((1 : Nat) ∈ m)) = some true := by
  decide

/-- C7 (amended): two-sided duplicate-free group membership (`GInv`) is
preserved by `defineGroup`, by `addObjectToGroup` when the entity is not
already a member, by `removeObjectFromGroup` when the group is undefined
or the entity is currently a member, and by
`removeObjectFromAllGroups`; moreover from an invariant state a guarded
add leaves the group name in the entity's list and the entity in the
member set, a guarded remove leaves it in neither, and adding to an
undefined group changes nothing. -/
theorem group_symmetry_amended :
    (∀ s g, GInv s → GInv (defineGroup s g)) ∧
    (∀ s g eid e, GInv s → lookupE s eid = some e → g ∉ e.groups →
      GInv (addObjectToGroup s g eid)) ∧
    (∀ s g eid e, GInv s → lookupE s eid = some e →
      lookupA g s.groupStore = none ∨ g ∈ e.groups →
      GInv (removeObjectFromGroup s g eid)) ∧
    (∀ s eid, GInv s → GInv (removeObjectFromAllGroups s eid)) ∧
    (∀ s g eid e m, GInv s → lookupE s eid = some e →
      lookupA g s.groupStore = some m → g ∉ e.groups →
      ∃ e' m', lookupE (addObjectToGroup s g eid) eid = some e' ∧
        lookupA g (addObjectToGroup s g eid).groupStore = some m' ∧
        g ∈ e'.groups ∧ eid ∈ m') ∧
    (∀ s g eid e, GInv s → lookupE s eid = some e → g ∈ e.groups →
      ∃ e' m', lookupE (removeObjectFromGroup s g eid) eid = some e' ∧
        lookupA g (removeObjectFromGroup s g eid).groupStore = some m' ∧
        g ∉ e'.groups ∧ eid ∉ m') ∧
    (∀ s g eid, lookupA g s.groupStore = none → addObjectToGroup s g eid = s) := by
  refine ⟨?_, ?_, ?_, ?_, ?_, ?_, ?_⟩
  · intro s g hG
    exact ginv_defineGroup g hG
  · intro s g eid e hG he hnot
    exact ginv_addObjectToGroup hG he hnot
  · intro s g eid e hG he hguard
    exact ginv_removeObjectFromGroup hG he hguard
  · intro s eid hG
    exact ginv_removeObjectFromAllGroups s eid hG
  · intro s g eid e m hG he hm hnot
    obtain ⟨-, h1, h2⟩ := addObjectToGroup_spec hG he hm hnot
    refine ⟨{ e with groups := e.groups ++ [g] }, m ++ [eid], h1, h2, ?_, ?_⟩
    · exact List.mem_append_right e.groups (List.mem_singleton_self g)
    · exact List.mem_append_right m (List.mem_singleton_self eid)
  · intro s g eid e hG he hmem
    exact (removeObjectFromGroup_spec hG he hmem).2
  · intro s g eid h
    exact addObjectToGroup_undef eid h

/-- Witness for the amended C7 on the concrete two-group board: defining
a further group, the guarded add of entity 1 to `g1`, the guarded remove
again, and a full group purge all preserve the invariant; the add leaves
two-sided membership, the remove clears both sides, and adding to the
undefined `g9` changes nothing. -/
theorem group_symmetry_amended_witness :
    GInv (defineGroup grpB "g3") ∧
    GInv (addObjectToGroup grpB "g1" 1) ∧
    GInv (removeObjectFromGroup grpC "g1" 1) ∧
    GInv (removeObjectFromAllGroups grpC 1) ∧
    (∃ e' m', lookupE (addObjectToGroup grpB "g1" 1) 1 = some e' ∧
      lookupA "g1" (addObjectToGroup grpB "g1" 1).groupStore = some m' ∧
      "g1" ∈ e'.groups ∧ (1 : Nat) ∈ m') ∧
    (∃ e' m', lookupE (removeObjectFromGroup grpC "g1" 1) 1 = some e' ∧
      lookupA "g1" (removeObjectFromGroup grpC "g1" 1).groupStore = some m' ∧
      "g1" ∉ e'.groups ∧ (1 : Nat) ∉ m') ∧
    addObjectToGroup grpB "g9" 7 = grpB := by
  have hth := group_symmetry_amended
  have hGB : GInv grpB := GInv_of_mem (by decide) (by decide) (by decide)
  have hGC : GInv grpC := GInv_of_mem (by decide) (by decide) (by decide)
  have heB : lookupE grpB 1 = some grpBent := by decide
  have heC : lookupE grpC 1 = some grpCent := by decide
  refine ⟨?_, ?_, ?_, ?_, ?_, ?_, ?_⟩
  · exact hth.1 grpB "g3" hGB
  · exact hth.2.1 grpB "g1" 1 grpBent hGB heB (by decide)
  · exact hth.2.2.1 grpC "g1" 1 grpCent hGC heC (Or.inr (by decide))
  · exact hth.2.2.2.1 grpC 1 hGC
  · exact hth.2.2.2.2.1 grpB "g1" 1 grpBent [] hGB heB (by decide) (by decide)
  · exact hth.2.2.2.2.2.1 grpC "g1" 1 grpCent hGC heC (by decide)
  · exact hth.2.2.2.2.2.2 grpB "g9" 7 (by decide)

end ZZT
